import Mathlib

/-!
Verification development for the `openapi-backend` request-lifecycle engine.

JavaScript strings are modelled as `List Char`; JavaScript objects whose key
order matters (`paths`, `content`, status-code maps, query objects) are
modelled as association lists in insertion order.  Regex-based operations of
the source (`router.js`) are modelled by equivalent character-level functions:
the path-template regex `\{.*?\}` → `[^/]+` is modelled by `parseTemplate` /
`chunksMatch`, which treats non-placeholder characters literally (the source
never escapes regex metacharacters; documents in scope contain none).
External collaborators (`JSON.parse`, the Ajv schema engine) are passed in as
explicit function parameters, mirroring the spec's "external interfaces".
-/

set_option maxHeartbeats 1000000

abbrev Str : Type := List Char

/-- Convert a Lean string literal to the model's string type. -/
def str (s : String) : Str := s.toList

/-- Association-list lookup, first match wins (JS property read). -/
def lookupKey {α : Type} (m : List (Str × α)) (k : Str) : Option α :=
  match m with
  | [] => none
  | (k2, v) :: rest => if k2 = k then some v else lookupKey rest k

/-- JS object property write: update in place if the key exists, else append. -/
def setKey {α : Type} (m : List (Str × α)) (k : Str) (v : α) : List (Str × α) :=
  match m with
  | [] => [(k, v)]
  | (k2, v2) :: rest => if k2 = k then (k2, v) :: rest else (k2, v2) :: setKey rest k v

/-- Split a string at every occurrence of the character `c` (JS String.split). -/
def splitOnChar (c : Char) : Str → List Str
  | [] => [[]]
  | a :: rest =>
    let r := splitOnChar c rest
    if a = c then [] :: r
    else
      match r with
      | [] => [[a]]
      | h :: t => (a :: h) :: t

/-- The characters JS String.prototype.trim removes: the ECMAScript
WhiteSpace set (TAB, VT, FF, SP, NBSP, ZWNBSP and the Unicode
space-separator category) together with the LineTerminator set. -/
def jsSpaceChars : List Char :=
  ['\t', '\n', '\x0B', '\x0C', '\r', ' ', '\u00A0', '\u1680', '\u2000',
   '\u2001', '\u2002', '\u2003', '\u2004', '\u2005', '\u2006', '\u2007',
   '\u2008', '\u2009', '\u200A', '\u2028', '\u2029', '\u202F', '\u205F',
   '\u3000', '\uFEFF']

/-- Whether JS String.prototype.trim removes this character. -/
def jsSpace (c : Char) : Bool := jsSpaceChars.contains c

/-- JS String.prototype.trim. -/
def trimStr (s : Str) : Str := ((s.dropWhile jsSpace).reverse.dropWhile jsSpace).reverse

/-- Mapping of ASCII uppercase letters to their lowercase forms. -/
def upperLowerPairs : List (Char × Char) :=
  [('A','a'), ('B','b'), ('C','c'), ('D','d'), ('E','e'), ('F','f'), ('G','g'),
   ('H','h'), ('I','i'), ('J','j'), ('K','k'), ('L','l'), ('M','m'), ('N','n'),
   ('O','o'), ('P','p'), ('Q','q'), ('R','r'), ('S','s'), ('T','t'), ('U','u'),
   ('V','v'), ('W','w'), ('X','x'), ('Y','y'), ('Z','z')]

/-- JS String.prototype.toLowerCase restricted to ASCII letters. -/
def jsToLower (c : Char) : Char :=
  match List.lookup c upperLowerPairs with
  | some l => l
  | none => c

/-- Lowercase a whole string. -/
def lowerStr (s : Str) : Str := s.map jsToLower

/-- Decimal rendering of a natural number (JS String(n) for non-negative ints). -/
def natToStr (n : Nat) : Str := (toString n).toList

theorem lookup_mem {α β : Type} [BEq α] [LawfulBEq α] {l : List (α × β)} {a : α} {b : β}
    (h : List.lookup a l = some b) : (a, b) ∈ l := by
  induction l with
  | nil => simp [List.lookup] at h
  | cons p t ih =>
    obtain ⟨k, v⟩ := p
    simp only [List.lookup] at h
    by_cases hk : a == k
    · rw [hk] at h
      obtain rfl : v = b := by simpa using h
      have : a = k := eq_of_beq hk
      subst this
      exact List.mem_cons_self _ _
    · rw [Bool.of_not_eq_true hk] at h
      exact List.mem_cons_of_mem _ (ih h)

theorem jsToLower_idem (c : Char) : jsToLower (jsToLower c) = jsToLower c := by
  unfold jsToLower
  cases h : List.lookup c upperLowerPairs with
  | none => rw [h]
  | some l =>
    have hmem : (c, l) ∈ upperLowerPairs := lookup_mem h
    have hnone : ∀ p ∈ upperLowerPairs, List.lookup p.2 upperLowerPairs = none := by decide
    rw [hnone (c, l) hmem]

theorem jsSpace_jsToLower (c : Char) : jsSpace (jsToLower c) = jsSpace c := by
  unfold jsToLower
  cases h : List.lookup c upperLowerPairs with
  | none => rfl
  | some l =>
    have hmem : (c, l) ∈ upperLowerPairs := lookup_mem h
    have hsp : ∀ p ∈ upperLowerPairs, jsSpace p.1 = false ∧ jsSpace p.2 = false := by decide
    rw [(hsp (c, l) hmem).1, (hsp (c, l) hmem).2]

/-! ## JavaScript values -/

/-- Model of a JavaScript runtime value, as far as the engine inspects one. -/
inductive JsValue : Type where
  | undefinedV
  | nullv
  | boolv (b : Bool)
  | numv (n : Int)
  | strv (s : Str)
  | arr (elems : List JsValue)
  | obj (fields : List (Str × JsValue))

/-- JS truthiness. -/
def JsValue.truthy : JsValue → Bool
  | .undefinedV => false
  | .nullv => false
  | .boolv b => b
  | .numv n => n != 0
  | .strv s => !s.isEmpty
  | .arr _ => true
  | .obj _ => true

/-- Values for which the JS expression `typeof v === 'object'` holds
(objects, arrays and null). -/
def JsValue.isObjectType : JsValue → Bool
  | .nullv => true
  | .arr _ => true
  | .obj _ => true
  | _ => false

/-- JS ToString, used by `req.body.toString()` and the template literal in the
source. The array and plain-object cases are unreachable there (both sit
behind a `typeof req.body !== 'object'` guard), so they are given fixed
renderings. -/
def JsValue.jsToString : JsValue → Str
  | .undefinedV => str "undefined"
  | .nullv => str "null"
  | .boolv true => str "true"
  | .boolv false => str "false"
  | .numv n => (toString n).toList
  | .strv s => s
  | .arr _ => str ""
  | .obj _ => str "[object Object]"

/-! ## Data model (OpenAPI document, operations, requests) -/

/-- The slice of a JSON schema object the engine itself inspects. -/
structure SchemaObj where
  type : Option Str := none
deriving DecidableEq

/-- Media type object: only the presence of a schema matters to the engine. -/
structure MediaTypeObj where
  schema : Option SchemaObj := none
deriving DecidableEq

/-- Request body object: `content` keyed by media type, insertion order. -/
structure RequestBodyObj where
  content : List (Str × MediaTypeObj) := []
deriving DecidableEq

/-- An OpenAPI parameter. The `in` field is called `location` because `in` is
a Lean keyword. -/
structure Parameter where
  name : Str
  location : Str
  required : Bool := false
  schema : Option SchemaObj := none
  content : Option (List (Str × MediaTypeObj)) := none
  style : Option Str := none
  explode : Option Bool := none
deriving DecidableEq

/-- A security requirement object: scheme name mapped to scopes. -/
abbrev SecurityRequirement : Type := List (Str × List Str)

/-- An operation as written in the document under a path item. -/
structure OperationDef where
  operationId : Option Str := none
  parameters : List Parameter := []
  requestBody : Option RequestBodyObj := none
  security : Option (List SecurityRequirement) := none
deriving DecidableEq

/-- A path item: method keys (insertion order) and path-level parameters. -/
structure PathItemObj where
  ops : List (Str × OperationDef) := []
  parameters : List Parameter := []
deriving DecidableEq

/-- The dereferenced OpenAPI document, as far as the router walks it. -/
structure ApiDocument where
  paths : List (Str × PathItemObj) := []
  security : Option (List SecurityRequirement) := none
deriving DecidableEq

/-- A flattened Operation record as returned by `getOperations`. -/
structure Operation where
  operationId : Option Str := none
  parameters : List Parameter := []
  requestBody : Option RequestBodyObj := none
  path : Str := []
  method : Str := []
  security : List SecurityRequirement := []
deriving DecidableEq

/-- An incoming request. -/
structure Request where
  method : Str
  path : Str
  headers : List (Str × JsValue) := []
  query : JsValue := .undefinedV
  body : JsValue := .undefinedV

/-! ## Router (src/router.js) -/

/-- The method keys picked out of a path item by `getOperations`
(`_.pick(pathBaseObject, [...])` iterates in this fixed order). -/
def knownMethods : List Str :=
  [str "get", str "put", str "post", str "delete", str "options", str "head",
   str "patch", str "trace"]

/-- Flattens `document.paths` into Operation records: the path item's
parameters are appended after the operation's own, and operation-level
security (even an empty array) overrides document-level security
(router.js getOperations). -/
def getOperations (doc : ApiDocument) : List Operation :=
  doc.paths.flatMap (fun pe =>
    (knownMethods.filterMap (fun m => (lookupKey pe.2.ops m).map (fun op => (m, op)))).map
      (fun me =>
        { operationId := me.2.operationId
          parameters := me.2.parameters ++ pe.2.parameters
          requestBody := me.2.requestBody
          path := pe.1
          method := me.1
          security :=
            match me.2.security with
            | some s => s
            | none => match doc.security with | some s => s | none => [] }))

/-- Linear scan for the first operation with the given operationId
(router.js getOperation). -/
def getOperation (doc : ApiDocument) (operationId : Str) : Option Operation :=
  (getOperations doc).find? (fun op => op.operationId == some operationId)

/-- The part of the JS `path.split('?')[0]` step: everything before the first
question mark. -/
def beforeQuery (s : Str) : Str := s.takeWhile (fun c => c ≠ '?')

/-- JS `path.replace(/\/+$/, '')`: remove a trailing run of slashes. -/
def dropTrailingSlashes (s : Str) : Str := (s.reverse.dropWhile (fun c => c = '/')).reverse

/-- JS `path.replace(/^\/*, '/')` step of the source: the leading (possibly
empty) run of slashes becomes exactly one slash. -/
def ensureLeadingSlash (s : Str) : Str := '/' :: s.dropWhile (fun c => c = '/')

/-- The path leg of normalizeRequest: trim, strip the query string, remove
trailing slashes, ensure a single leading slash. -/
def normPathStr (p : Str) : Str :=
  ensureLeadingSlash (dropTrailingSlashes (beforeQuery (trimStr p)))

/-- Normalises a request: lowercase trimmed method; path trimmed, query string
stripped, trailing slashes removed, exactly one leading slash
(router.js normalizeRequest). Does not mutate its input. -/
def normalizeRequest (req : Request) : Request :=
  { req with
    path := normPathStr req.path
    method := lowerStr (trimStr req.method) }

/-- JS `path.replace(new RegExp('^' + apiRoot + '/?'), '/')`: strip the
apiRoot prefix together with at most one following slash, writing a single
slash in its place (router.js normalizePath). -/
def normalizePath (apiRoot : Str) (path : Str) : Str :=
  if apiRoot.isPrefixOf path then
    '/' :: (match path.drop apiRoot.length with
            | '/' :: rest => rest
            | s => s)
  else path

/-! ## Path templates

The source turns a template into a regex with
`path.replace(/\{.*?\}/g, '[^/]+')` anchored by `^...$`.  The lazy group
eats from each `{` to the nearest following `}` (a `{` with no later `}` is
left as literal text).  `parseTemplate` performs that scan; `chunksMatch` is
full-match semantics of the produced pattern, a placeholder matching one or
more non-slash characters. -/

/-- One piece of a compiled path template. -/
inductive Chunk where
  | lit (s : Str)
  | hole (name : Str)
deriving DecidableEq

/-- Scanner for `parseTemplate`, structurally recursive on a character budget
(each step consumes at least one character, so `s.length` steps suffice). -/
def parseTemplateAux : Nat → Str → List Chunk
  | 0, _ => []
  | _, [] => []
  | fuel + 1, c :: rest =>
    if c = '{' ∧ rest.contains '}' = true then
      Chunk.hole (rest.takeWhile (fun d => d ≠ '}')) ::
        parseTemplateAux fuel ((rest.dropWhile (fun d => d ≠ '}')).drop 1)
    else
      Chunk.lit [c] :: parseTemplateAux fuel rest

/-- Scan a template into literal characters and `\x7bname\x7d` placeholders. -/
def parseTemplate (s : Str) : List Chunk := parseTemplateAux s.length s

/-- Full-match of a compiled template against a string: literals match
themselves, a placeholder matches one or more non-slash characters. -/
def chunksMatch : List Chunk → Str → Bool
  | [], s => s.isEmpty
  | .lit l :: cs, s => l.isPrefixOf s && chunksMatch cs (s.drop l.length)
  | .hole _ :: cs, s =>
    (List.range s.length).any (fun n =>
      (s.take (n + 1)).all (fun c => c ≠ '/') && chunksMatch cs (s.drop (n + 1)))

/-- Whether a template matches a normalized path (router.js matchOperation,
template branch). -/
def templateMatch (template path : Str) : Bool := chunksMatch (parseTemplate template) path

/-- Specificity of a template: the length of
`path.replace(RegExp(/\{.*?\}/g), '')`, i.e. the number of characters
outside placeholders. -/
def specificity (template : Str) : Nat :=
  (parseTemplate template).foldl
    (fun n ch => match ch with | .lit l => n + l.length | .hole _ => n) 0

/-- Path parameter extraction after the bath-es5 library: capture each
placeholder's segment (greedy, longest first), or `none` if the template does
not match. -/
def chunksCapture : List Chunk → Str → Option (List (Str × Str))
  | [], s => if s.isEmpty then some [] else none
  | .lit l :: cs, s =>
    if l.isPrefixOf s then chunksCapture cs (s.drop l.length) else none
  | .hole name :: cs, s =>
    (List.range s.length).reverse.findSome? (fun n =>
      if (s.take (n + 1)).all (fun c => c ≠ '/') then
        (chunksCapture cs (s.drop (n + 1))).map (fun ps => (name, s.take (n + 1)) :: ps)
      else none)

/-- Path params of a normalized path under a template (bath-es5 `params`). -/
def templateParams (template path : Str) : Option (List (Str × Str)) :=
  chunksCapture (parseTemplate template) path

/-! ## matchOperation (router.js) -/

/-- Outcome of the routing algorithm, before the strict/non-strict split. -/
inductive MatchResult where
  | found (op : Operation)
  | notFound
  | methodNotAllowed
deriving DecidableEq

/-- The ordering used by `_.orderBy(..., 'desc')` on template matches:
specificity descending. -/
def specOrder (a b : Operation) : Prop := specificity b.path ≤ specificity a.path

instance : DecidableRel specOrder := fun _ _ => Nat.decLe _ _

instance : IsTotal Operation specOrder :=
  ⟨fun a b => Nat.le_total (specificity b.path) (specificity a.path)⟩

instance : IsTrans Operation specOrder :=
  ⟨fun _ _ _ hab hbc => Nat.le_trans hbc hab⟩

/-- Core of router.js matchOperation: exact path matches first, then template
matches ordered by specificity descending (`List.insertionSort` is a stable
sort, as is lodash orderBy). -/
def matchOperationRes (doc : ApiDocument) (apiRoot : Str) (req : Request) : MatchResult :=
  let r := normalizeRequest req
  if apiRoot.isPrefixOf r.path then
    let normalizedPath := normalizePath apiRoot r.path
    let exactPathMatches := (getOperations doc).filter (fun op => op.path == normalizedPath)
    match exactPathMatches.find? (fun op => op.method == r.method) with
    | some op => .found op
    | none =>
      let templatePathMatches :=
        (getOperations doc).filter (fun op => templateMatch op.path normalizedPath)
      if templatePathMatches.isEmpty then .notFound
      else
        match (templatePathMatches.insertionSort specOrder).find?
            (fun op => op.method == r.method) with
        | some op => .found op
        | none => .methodNotAllowed
  else .notFound

/-- router.js matchOperation: in strict mode routing failures are thrown
(modelled as `Except.error` carrying the message), otherwise undefined
(`Except.ok none`) is returned. -/
def matchOperation (doc : ApiDocument) (apiRoot : Str) (req : Request) (strict : Bool) :
    Except Str (Option Operation) :=
  match matchOperationRes doc apiRoot req with
  | .found op => .ok (some op)
  | .notFound =>
    if strict then .error (str "404-notFound: no route matches request") else .ok none
  | .methodNotAllowed =>
    if strict then .error (str "405-methodNotAllowed: this method is not registered for the route")
    else .ok none

/-! ## Claim-side routing selector

`bestTemplateMatch` is the specification's description of step 6 of
matchOperation: order template matches by specificity descending with ties
broken by document order, and take the first whose method matches.  Stated
directly, that is: the earliest element of maximal specificity among those
with the request method. -/

/-- The earliest operation with the given method among those of maximal
specificity (the element a stable descending sort followed by a find picks). -/
def bestTemplateMatch (method : Str) : List Operation → Option Operation
  | [] => none
  | x :: l =>
    match bestTemplateMatch method l with
    | none => if x.method == method then some x else none
    | some b =>
      if x.method == method then
        if specificity x.path < specificity b.path then some b else some x
      else some b

theorem find?_filter_comm {α : Type} (l : List α) (q p : α → Bool) :
    (l.filter q).find? p = l.find? (fun a => q a && p a) := by
  induction l with
  | nil => rfl
  | cons x t ih =>
    by_cases hq : q x
    · by_cases hp : p x
      · simp [List.filter_cons, List.find?, hq, hp]
      · simp [List.filter_cons, List.find?, hq, hp, ih]
    · simp [List.filter_cons, List.find?, hq, ih]

theorem find?_orderedInsert (p : Operation → Bool) (x : Operation) (S : List Operation)
    (hs : S.Sorted specOrder) :
    (S.orderedInsert specOrder x).find? p =
      (match S.find? p with
       | none => if p x then some x else none
       | some b =>
         if p x then
           if specificity x.path < specificity b.path then some b else some x
         else some b) := by
  induction S with
  | nil =>
    cases hpx : p x <;> simp [List.orderedInsert, List.find?, hpx]
  | cons s T ih =>
    rw [List.sorted_cons] at hs
    by_cases hxs : specOrder x s
    · rw [List.orderedInsert, if_pos hxs]
      cases hpx : p x with
      | true =>
        cases hfind : List.find? p (s :: T) with
        | none => simp [List.find?, hpx]
        | some b =>
          have hb : b ∈ s :: T := List.mem_of_find?_eq_some hfind
          have hbs : specificity b.path ≤ specificity s.path := by
            rcases List.mem_cons.mp hb with rfl | hbT
            · exact Nat.le_refl _
            · exact hs.1 b hbT
          have hnotlt : ¬ specificity x.path < specificity b.path := by
            have := Nat.le_trans hbs hxs
            omega
          simp [List.find?, hpx, hfind, hnotlt]
      | false =>
        rw [List.find?_cons_of_neg _ (by simp [hpx])]
        cases hfind : List.find? p (s :: T) with
        | none => rfl
        | some b => rfl
    · rw [List.orderedInsert, if_neg hxs]
      have hlt : specificity x.path < specificity s.path := by
        simp only [specOrder] at hxs
        omega
      cases hps : p s with
      | true =>
        cases hpx : p x with
        | true => simp [List.find?, hps, hpx, hlt]
        | false => simp [List.find?, hps, hpx]
      | false =>
        rw [List.find?_cons_of_neg _ (by simp [hps]), ih hs.2,
          List.find?_cons_of_neg _ (by simp [hps])]

theorem find?_insertionSort_eq_best (method : Str) (L : List Operation) :
    (L.insertionSort specOrder).find? (fun op => op.method == method) =
      bestTemplateMatch method L := by
  induction L with
  | nil => rfl
  | cons x l ih =>
    rw [List.insertionSort, find?_orderedInsert _ _ _ (List.sorted_insertionSort specOrder l),
      ih]
    rfl

/-! ## Concrete fixtures (the document of backend.test.js, pared to routing) -/

/-- Petstore document used by the repository's test suite (paths and methods
as in backend.test.js, without response bodies). -/
def petDoc : ApiDocument :=
  { paths :=
      [(str "/pets",
        { ops := [(str "get", { operationId := some (str "getPets") }),
                  (str "post", { operationId := some (str "createPet") })] }),
       (str "/pets/\x7bid\x7d",
        { ops := [(str "get", { operationId := some (str "getPetById") })],
          parameters := [{ name := str "id", location := str "path", required := true }] }),
       (str "/pets/\x7bid\x7d/owner",
        { ops := [(str "get", { operationId := some (str "getOwnerByPetId") })],
          parameters := [{ name := str "id", location := str "path", required := true }] }),
       (str "/pets/meta",
        { ops := [(str "get", { operationId := some (str "getPetsMeta") })] })] }

/-- C1: matchOperation first returns an operation whose path equals the
normalized path with the lowercased request method; otherwise, among template
matches it picks the earliest operation of maximal specificity (the length of
the template with all placeholders removed) whose method matches — which is
exactly what a stable descending sort followed by a find produces. -/
theorem matchOperation_exact_then_best (doc : ApiDocument) (apiRoot : Str) (req : Request)
    (hroot : apiRoot.isPrefixOf (normalizeRequest req).path = true) :
    matchOperationRes doc apiRoot req =
      (match (getOperations doc).find?
          (fun op => op.path == normalizePath apiRoot (normalizeRequest req).path &&
            op.method == (normalizeRequest req).method) with
       | some op => MatchResult.found op
       | none =>
         let tmpl := (getOperations doc).filter
           (fun op => templateMatch op.path (normalizePath apiRoot (normalizeRequest req).path))
         if tmpl.isEmpty then MatchResult.notFound
         else
           match bestTemplateMatch (normalizeRequest req).method tmpl with
           | some op => MatchResult.found op
           | none => MatchResult.methodNotAllowed) := by
  simp only [matchOperationRes]
  rw [if_pos hroot, find?_filter_comm, find?_insertionSort_eq_best]

theorem matchOperation_exact_then_best_witness :
    matchOperationRes petDoc (str "/") { method := str "GET", path := str "/pets/xyz" } =
      MatchResult.found
        { operationId := some (str "getPetById"), path := str "/pets/\x7bid\x7d",
          method := str "get",
          parameters := [{ name := str "id", location := str "path", required := true }] } :=
  (matchOperation_exact_then_best petDoc (str "/")
    { method := str "GET", path := str "/pets/xyz" } (by decide)).trans (by decide)

/-! ## C4: strict-mode routing errors -/

/-- Step 3 of matchOperation: the first operation matching the normalized
path exactly together with the request method. -/
def exactMethodMatch (doc : ApiDocument) (apiRoot : Str) (req : Request) : Option Operation :=
  ((getOperations doc).filter
    (fun op => op.path == normalizePath apiRoot (normalizeRequest req).path)).find?
      (fun op => op.method == (normalizeRequest req).method)

/-- Step 4 of matchOperation: all operations whose template matches the
normalized path. -/
def templateMatches (doc : ApiDocument) (apiRoot : Str) (req : Request) : List Operation :=
  (getOperations doc).filter
    (fun op => templateMatch op.path (normalizePath apiRoot (normalizeRequest req).path))

/-- Document whose only path template contains a slash inside the placeholder:
its template regex matches nothing (a placeholder never matches a slash), yet
the literal path can still be matched exactly. -/
def braceSlashDoc : ApiDocument :=
  { paths :=
      [(str "/x/\x7ba/b\x7d",
        { ops := [(str "get", { operationId := some (str "weird") })] })] }

/-- C4 counterexample: a strict-mode request for which no operation's template
matches the normalized path, yet matchOperation returns an operation (found by
exact path-and-method comparison) instead of throwing `404-notFound:`. -/
theorem matchOperation_strict404_counterexample :
    ((getOperations braceSlashDoc).all
      (fun op => !templateMatch op.path
        (normalizePath (str "/")
          (normalizeRequest { method := str "get", path := str "/x/\x7ba/b\x7d" }).path)) = true)
    ∧ matchOperation braceSlashDoc (str "/")
        { method := str "get", path := str "/x/\x7ba/b\x7d" } true =
      Except.ok (some
        { operationId := some (str "weird"), path := str "/x/\x7ba/b\x7d",
          method := str "get" }) := by
  exact ⟨by decide, rfl⟩

/-- C4 (amended): provided no operation matches the normalized path exactly
with the request method, strict mode throws an error beginning with
`404-notFound:` when the path does not start with apiRoot (that case needs no
proviso) or when no template matches the normalized path, and one beginning
with `405-methodNotAllowed:` when templates match but none carries the
request method; non-strict mode returns undefined in all three situations and
never throws. -/
theorem matchOperation_strict_errors (doc : ApiDocument) (apiRoot : Str) (req : Request) :
    (apiRoot.isPrefixOf (normalizeRequest req).path = false →
      (∃ msg, matchOperation doc apiRoot req true = Except.error msg ∧
        (str "404-notFound:").isPrefixOf msg = true) ∧
      matchOperation doc apiRoot req false = Except.ok none)
    ∧ (apiRoot.isPrefixOf (normalizeRequest req).path = true →
      exactMethodMatch doc apiRoot req = none →
      templateMatches doc apiRoot req = [] →
      (∃ msg, matchOperation doc apiRoot req true = Except.error msg ∧
        (str "404-notFound:").isPrefixOf msg = true) ∧
      matchOperation doc apiRoot req false = Except.ok none)
    ∧ (apiRoot.isPrefixOf (normalizeRequest req).path = true →
      exactMethodMatch doc apiRoot req = none →
      templateMatches doc apiRoot req ≠ [] →
      (∀ op ∈ templateMatches doc apiRoot req, ¬ op.method = (normalizeRequest req).method) →
      (∃ msg, matchOperation doc apiRoot req true = Except.error msg ∧
        (str "405-methodNotAllowed:").isPrefixOf msg = true) ∧
      matchOperation doc apiRoot req false = Except.ok none)
    ∧ (∀ msg, matchOperation doc apiRoot req false ≠ Except.error msg) := by
  refine ⟨?_, ?_, ?_, ?_⟩
  · intro hroot
    have hres : matchOperationRes doc apiRoot req = MatchResult.notFound := by
      simp only [matchOperationRes]
      rw [if_neg (by simp [hroot])]
    exact ⟨⟨str "404-notFound: no route matches request",
      by simp [matchOperation, hres], by decide⟩, by simp [matchOperation, hres]⟩
  · intro hroot hexact htmpl
    simp only [exactMethodMatch] at hexact
    have hempty : (templateMatches doc apiRoot req).isEmpty = true := by
      rw [List.isEmpty_iff]; exact htmpl
    simp only [templateMatches] at hempty
    have hres : matchOperationRes doc apiRoot req = MatchResult.notFound := by
      simp only [matchOperationRes]
      rw [if_pos hroot, hexact, if_pos hempty]
    exact ⟨⟨str "404-notFound: no route matches request",
      by simp [matchOperation, hres], by decide⟩, by simp [matchOperation, hres]⟩
  · intro hroot hexact htmpl hmeth
    simp only [exactMethodMatch] at hexact
    have hempty : (templateMatches doc apiRoot req).isEmpty = false := by
      rw [List.isEmpty_eq_false_iff_exists_mem]
      rcases List.exists_mem_of_ne_nil _ htmpl with ⟨x, hx⟩
      exact ⟨x, hx⟩
    have hfind : ((templateMatches doc apiRoot req).insertionSort specOrder).find?
        (fun op => op.method == (normalizeRequest req).method) = none := by
      rw [List.find?_eq_none]
      intro x hx
      simpa using hmeth x ((List.mem_insertionSort specOrder).mp hx)
    simp only [templateMatches] at hempty hfind
    have hres : matchOperationRes doc apiRoot req = MatchResult.methodNotAllowed := by
      simp only [matchOperationRes]
      rw [if_pos hroot, hexact, if_neg (by simp [hempty]), hfind]
    exact ⟨⟨str "405-methodNotAllowed: this method is not registered for the route",
      by simp [matchOperation, hres], by decide⟩, by simp [matchOperation, hres]⟩
  · intro msg
    cases hres : matchOperationRes doc apiRoot req <;> simp [matchOperation, hres]

theorem matchOperation_strict_errors_witness :
    ((∃ msg, matchOperation petDoc (str "/")
        { method := str "delete", path := str "/pets" } true = Except.error msg ∧
      (str "405-methodNotAllowed:").isPrefixOf msg = true) ∧
    matchOperation petDoc (str "/")
      { method := str "delete", path := str "/pets" } false = Except.ok none) :=
  (matchOperation_strict_errors petDoc (str "/")
    { method := str "delete", path := str "/pets" }).2.2.1
    (by decide) (by decide) (by decide) (by decide)

/-! ## Evaluation lemmas for matchOperationRes -/

theorem matchOperationRes_of_noRoot {doc : ApiDocument} {apiRoot : Str} {req : Request}
    (h : apiRoot.isPrefixOf (normalizeRequest req).path = false) :
    matchOperationRes doc apiRoot req = MatchResult.notFound := by
  simp only [matchOperationRes]
  rw [if_neg (by simp [h])]

theorem matchOperationRes_of_exact {doc : ApiDocument} {apiRoot : Str} {req : Request}
    {op : Operation} (hroot : apiRoot.isPrefixOf (normalizeRequest req).path = true)
    (hexact : exactMethodMatch doc apiRoot req = some op) :
    matchOperationRes doc apiRoot req = MatchResult.found op := by
  simp only [exactMethodMatch] at hexact
  simp only [matchOperationRes]
  rw [if_pos hroot, hexact]

theorem matchOperationRes_of_noTmpl {doc : ApiDocument} {apiRoot : Str} {req : Request}
    (hroot : apiRoot.isPrefixOf (normalizeRequest req).path = true)
    (hexact : exactMethodMatch doc apiRoot req = none)
    (htmpl : templateMatches doc apiRoot req = []) :
    matchOperationRes doc apiRoot req = MatchResult.notFound := by
  simp only [exactMethodMatch] at hexact
  have hempty : (templateMatches doc apiRoot req).isEmpty = true := by
    rw [List.isEmpty_iff]; exact htmpl
  simp only [templateMatches] at hempty
  simp only [matchOperationRes]
  rw [if_pos hroot, hexact, if_pos hempty]

theorem matchOperationRes_of_tmplFind {doc : ApiDocument} {apiRoot : Str} {req : Request}
    {res : Option Operation}
    (hroot : apiRoot.isPrefixOf (normalizeRequest req).path = true)
    (hexact : exactMethodMatch doc apiRoot req = none)
    (htmpl : templateMatches doc apiRoot req ≠ [])
    (hfind : ((templateMatches doc apiRoot req).insertionSort specOrder).find?
      (fun op => op.method == (normalizeRequest req).method) = res) :
    matchOperationRes doc apiRoot req =
      (match res with
       | some op => MatchResult.found op
       | none => MatchResult.methodNotAllowed) := by
  simp only [exactMethodMatch] at hexact
  have hempty : (templateMatches doc apiRoot req).isEmpty = false := by
    rw [List.isEmpty_eq_false_iff_exists_mem]
    rcases List.exists_mem_of_ne_nil _ htmpl with ⟨x, hx⟩
    exact ⟨x, hx⟩
  simp only [templateMatches] at hempty hfind
  simp only [matchOperationRes]
  rw [if_pos hroot, hexact, if_neg (by simp [hempty]), hfind]
  cases res <;> rfl

/-! ## C10: exact-path requests fall through to template matching -/

/-- Document declaring `GET /pets/meta` exactly and `POST /pets/\x7bid\x7d`
as a template. -/
def fallThroughDoc : ApiDocument :=
  { paths :=
      [(str "/pets/meta",
        { ops := [(str "get", { operationId := some (str "getPetsMeta") })] }),
       (str "/pets/\x7bid\x7d",
        { ops := [(str "post", { operationId := some (str "postPetById") })] })] }

/-- C10: a methodNotAllowed outcome arises exactly when the request passes the
apiRoot check, no operation matches path-and-method exactly, at least one
template matches the normalized path, and none of the template matches carries
the request method; in particular a request whose path equals a declared path
but not its methods falls through to template matching — concretely,
`POST /pets/meta` is routed to the `POST /pets/\x7bid\x7d` operation although
`/pets/meta` is declared (with only GET). -/
theorem matchOperation_methodNotAllowed_iff :
    (∀ (doc : ApiDocument) (apiRoot : Str) (req : Request),
      matchOperationRes doc apiRoot req = MatchResult.methodNotAllowed ↔
        apiRoot.isPrefixOf (normalizeRequest req).path = true ∧
        exactMethodMatch doc apiRoot req = none ∧
        templateMatches doc apiRoot req ≠ [] ∧
        ∀ op ∈ templateMatches doc apiRoot req,
          ¬ op.method = (normalizeRequest req).method)
    ∧ matchOperationRes fallThroughDoc (str "/")
        { method := str "post", path := str "/pets/meta" } =
      MatchResult.found
        { operationId := some (str "postPetById"), path := str "/pets/\x7bid\x7d",
          method := str "post" } := by
  refine ⟨fun doc apiRoot req => ?_, by decide⟩
  constructor
  · intro h
    cases hroot : apiRoot.isPrefixOf (normalizeRequest req).path with
    | false => rw [matchOperationRes_of_noRoot hroot] at h; exact absurd h (by simp)
    | true =>
      cases hexact : exactMethodMatch doc apiRoot req with
      | some op => rw [matchOperationRes_of_exact hroot hexact] at h; exact absurd h (by simp)
      | none =>
        by_cases htmpl : templateMatches doc apiRoot req = []
        · rw [matchOperationRes_of_noTmpl hroot hexact htmpl] at h; exact absurd h (by simp)
        · cases hfind : ((templateMatches doc apiRoot req).insertionSort specOrder).find?
              (fun op => op.method == (normalizeRequest req).method) with
          | some op =>
            rw [matchOperationRes_of_tmplFind hroot hexact htmpl hfind] at h
            exact absurd h (by simp)
          | none =>
            refine ⟨rfl, rfl, htmpl, fun op hop => ?_⟩
            have := List.find?_eq_none.mp hfind op
              ((List.mem_insertionSort specOrder).mpr hop)
            simpa using this
  · rintro ⟨hroot, hexact, htmpl, hmeth⟩
    have hfind : ((templateMatches doc apiRoot req).insertionSort specOrder).find?
        (fun op => op.method == (normalizeRequest req).method) = none := by
      rw [List.find?_eq_none]
      intro x hx
      simpa using hmeth x ((List.mem_insertionSort specOrder).mp hx)
    exact matchOperationRes_of_tmplFind hroot hexact htmpl hfind

theorem matchOperation_methodNotAllowed_iff_witness :
    matchOperationRes petDoc (str "/") { method := str "delete", path := str "/pets" } =
      MatchResult.methodNotAllowed :=
  (matchOperation_methodNotAllowed_iff.1 petDoc (str "/")
    { method := str "delete", path := str "/pets" }).mpr
    ⟨by decide, by decide, by decide, by decide⟩

/-! ## C8: idempotence of normalizeRequest -/

/-- Whether the final character of a string is trimmable whitespace. -/
def endsInSpace (s : Str) : Bool :=
  match s.reverse.head? with
  | none => false
  | some c => jsSpace c

theorem dropWhile_eq_self_of_head? {p : Char → Bool} {l : Str} {c : Char}
    (hh : l.head? = some c) (hc : p c = false) : l.dropWhile p = l := by
  cases l with
  | nil => rfl
  | cons a t =>
    obtain rfl : a = c := by simpa using hh
    exact List.dropWhile_cons_of_neg (by simp [hc])

theorem head?_of_prefix {l u : Str} (h : l <+: u) (hne : l ≠ []) : u.head? = l.head? := by
  obtain ⟨w, rfl⟩ := h
  cases l with
  | nil => exact absurd rfl hne
  | cons a t => rfl

theorem lowerStr_trimStr (s : Str) : lowerStr (trimStr s) = trimStr (lowerStr s) := by
  have hcomp : jsSpace ∘ jsToLower = jsSpace := funext jsSpace_jsToLower
  have hmd : ∀ l : Str, (List.dropWhile jsSpace l).map jsToLower =
      (l.map jsToLower).dropWhile jsSpace := fun l => by
    rw [List.dropWhile_map, hcomp]
  simp only [lowerStr, trimStr, List.map_reverse, hmd]

theorem lowerStr_idem (s : Str) : lowerStr (lowerStr s) = lowerStr s := by
  have hcomp : jsToLower ∘ jsToLower = jsToLower := funext jsToLower_idem
  simp [lowerStr, List.map_map, hcomp]

theorem trimStr_idem (s : Str) : trimStr (trimStr s) = trimStr s := by
  have hrev : (trimStr s).reverse = (s.dropWhile jsSpace).reverse.dropWhile jsSpace := by
    simp [trimStr]
  have step1 : (trimStr s).dropWhile jsSpace = trimStr s := by
    cases htr : trimStr s with
    | nil => rfl
    | cons a t =>
      have hne : trimStr s ≠ [] := by simp [htr]
      have hpre : trimStr s <+: s.dropWhile jsSpace := by
        have := List.rdropWhile_prefix jsSpace (s.dropWhile jsSpace)
        simpa [trimStr, List.rdropWhile] using this
      have hdne : s.dropWhile jsSpace ≠ [] := by
        intro hd
        rw [hd] at hpre
        exact hne (List.prefix_nil.mp hpre)
      have hheads : (s.dropWhile jsSpace).head? = (trimStr s).head? := head?_of_prefix hpre hne
      have ha : (s.dropWhile jsSpace).head? = some a := by rw [hheads, htr]; rfl
      have ha2 : (s.dropWhile jsSpace).head hdne = a := by
        have := List.head?_eq_head (l := s.dropWhile jsSpace) hdne
        rw [ha] at this
        exact (Option.some.injEq _ _).mp this.symm
      have hfail : jsSpace a = false := ha2 ▸ List.head_dropWhile_not jsSpace s hdne
      exact List.dropWhile_cons_of_neg (by simp [hfail])
  have step2 : (trimStr s).reverse.dropWhile jsSpace = (trimStr s).reverse := by
    rw [hrev, List.dropWhile_idempotent]
  show ((List.dropWhile jsSpace (trimStr s)).reverse.dropWhile jsSpace).reverse = trimStr s
  rw [step1, step2, List.reverse_reverse]

theorem normPathStr_idem (p : Str) (h : endsInSpace (normPathStr p) = false) :
    normPathStr (normPathStr p) = normPathStr p := by
  have hps : normPathStr p =
      '/' :: (dropTrailingSlashes (beforeQuery (trimStr p))).dropWhile (fun c => c = '/') := rfl
  cases ht : (dropTrailingSlashes (beforeQuery (trimStr p))).dropWhile (fun c => c = '/') with
  | nil =>
    rw [hps, ht]
    decide
  | cons a t' =>
    set u := dropTrailingSlashes (beforeQuery (trimStr p)) with hu
    set t : Str := a :: t' with htdef
    have htu : u.dropWhile (fun c => c = '/') = t := ht
    have htne : t ≠ [] := by simp [htdef]
    have hp1 : normPathStr p = '/' :: t := by rw [hps, htu]
    -- the final character of `t` is the final character of `u`, which is not a slash
    have htsuff : t <:+ u := htu ▸ List.dropWhile_suffix _
    obtain ⟨w, hw⟩ := htsuff
    have htrne : t.reverse ≠ [] := by simp [htdef]
    have hurev : u.reverse = (beforeQuery (trimStr p)).reverse.dropWhile (fun c => c = '/') := by
      rw [hu]; simp [dropTrailingSlashes]
    have hurevne : u.reverse ≠ [] := by
      rw [← hw]
      simp only [List.reverse_append]
      intro hcontra
      exact htrne (List.append_eq_nil.mp hcontra).1
    have hhead : u.reverse.head? = t.reverse.head? := by
      rw [← hw, List.reverse_append]
      exact List.head?_append_of_ne_nil _ htrne
    have hlastfail : ∀ c, t.reverse.head? = some c → (c = '/') = False := by
      intro c hc
      rw [← hhead] at hc
      have hfl := List.head_dropWhile_not (fun c => c = '/')
        ((beforeQuery (trimStr p)).reverse) (by rw [← hurev]; exact hurevne)
      have : u.reverse.head (by exact hurevne) = c := by
        have h2 := List.head?_eq_head (l := u.reverse) hurevne
        rw [hc] at h2
        exact (Option.some.injEq _ _).mp h2.symm
      simp only [hurev] at this hfl ⊢
      rw [this] at hfl
      simpa using hfl
    -- last char of normPathStr p is last char of t, and is not whitespace by h
    have hrev1 : (normPathStr p).reverse = t.reverse ++ ['/'] := by
      rw [hp1, List.reverse_cons]
    obtain ⟨c, hc⟩ : ∃ c, t.reverse.head? = some c := by
      cases hcc : t.reverse.head? with
      | none => exact absurd (List.head?_eq_none_iff.mp hcc) htrne
      | some c => exact ⟨c, rfl⟩
    have hcslash : (c = '/') = False := hlastfail c hc
    have hcspace : jsSpace c = false := by
      have hh : (normPathStr p).reverse.head? = some c := by
        rw [hrev1, List.head?_append_of_ne_nil _ htrne, hc]
      unfold endsInSpace at h
      rw [hh] at h
      exact h
    -- (A) trim is the identity on normPathStr p
    have hA : trimStr (normPathStr p) = normPathStr p := by
      have hA1 : (normPathStr p).dropWhile jsSpace = normPathStr p := by
        rw [hp1]
        exact List.dropWhile_cons_of_neg (by decide)
      have hA2 : (normPathStr p).reverse.dropWhile jsSpace = (normPathStr p).reverse := by
        refine dropWhile_eq_self_of_head? ?_ hcspace
        rw [hrev1]
        rw [List.head?_append_of_ne_nil _ htrne, hc]
      show ((List.dropWhile jsSpace (normPathStr p)).reverse.dropWhile jsSpace).reverse =
        normPathStr p
      rw [hA1, hA2, List.reverse_reverse]
    -- (B) there is no question mark in normPathStr p
    have hB : beforeQuery (normPathStr p) = normPathStr p := by
      apply List.takeWhile_eq_self_iff.mpr
      intro x hx
      rw [hp1] at hx
      rcases List.mem_cons.mp hx with rfl | hxt
      · decide
      · have hxu : x ∈ u := (htu ▸ List.dropWhile_sublist (fun c => c = '/')).subset hxt
        have hxq : x ∈ beforeQuery (trimStr p) := by
          have : x ∈ (beforeQuery (trimStr p)).reverse.dropWhile (fun c => c = '/') := by
            rw [← hurev]; exact List.mem_reverse.mpr hxu
          exact List.mem_reverse.mp
            ((List.dropWhile_sublist (fun c => c = '/')).subset this)
        have hxq2 : x ∈ (trimStr p).takeWhile (fun c => c ≠ '?') := hxq
        simpa using List.mem_takeWhile_imp hxq2
    -- (C) no trailing slash to drop
    have hC : dropTrailingSlashes (normPathStr p) = normPathStr p := by
      have hh2 : (normPathStr p).reverse.head? = some c := by
        rw [hrev1, List.head?_append_of_ne_nil _ htrne, hc]
      have : (normPathStr p).reverse.dropWhile (fun c => c = '/') = (normPathStr p).reverse := by
        refine dropWhile_eq_self_of_head? hh2 ?_
        simp [hcslash]
      show ((normPathStr p).reverse.dropWhile (fun c => c = '/')).reverse = normPathStr p
      rw [this, List.reverse_reverse]
    -- (D) the leading slash is already unique
    have hD : ensureLeadingSlash (normPathStr p) = normPathStr p := by
      show '/' :: (normPathStr p).dropWhile (fun c => c = '/') = normPathStr p
      rw [hp1]
      rw [List.dropWhile_cons_of_pos (by decide), ← htu, List.dropWhile_idempotent, htu]
    show ensureLeadingSlash (dropTrailingSlashes (beforeQuery (trimStr (normPathStr p)))) =
      normPathStr p
    rw [hA, hB, hC, hD]

theorem methodNorm_idem (m : Str) :
    lowerStr (trimStr (lowerStr (trimStr m))) = lowerStr (trimStr m) := by
  rw [lowerStr_trimStr m, trimStr_idem (lowerStr m), lowerStr_trimStr (lowerStr m),
    lowerStr_idem m]

/-- C8 counterexample: `normalizeRequest` is not idempotent. Stripping the
trailing slash of `"/a /"` exposes a trailing space, which only the second
application's trim removes: once gives path `"/a "`, twice gives `"/a"`. -/
theorem normalizeRequest_idem_counterexample :
    normalizeRequest (normalizeRequest { method := str "get", path := str "/a /" }) ≠
      normalizeRequest { method := str "get", path := str "/a /" } := by
  intro hcontra
  have hp := congrArg Request.path hcontra
  revert hp
  decide

/-- C8 (amended): normalizeRequest is idempotent on every request whose
normalized path does not end in trimmable whitespace (stripping the query
string or trailing slashes can expose such whitespace, which only a second
trim removes; the method leg is unconditionally stable). -/
theorem normalizeRequest_idem (req : Request)
    (h : endsInSpace (normalizeRequest req).path = false) :
    normalizeRequest (normalizeRequest req) = normalizeRequest req := by
  have hp : normPathStr (normPathStr req.path) = normPathStr req.path :=
    normPathStr_idem req.path h
  show Request.mk (lowerStr (trimStr (lowerStr (trimStr req.method))))
      (normPathStr (normPathStr req.path)) req.headers req.query req.body =
    Request.mk (lowerStr (trimStr req.method)) (normPathStr req.path)
      req.headers req.query req.body
  rw [hp, methodNorm_idem req.method]

theorem normalizeRequest_idem_witness :
    normalizeRequest (normalizeRequest { method := str "GET", path := str "/pets/?limit=10" }) =
      normalizeRequest { method := str "GET", path := str "/pets/?limit=10" } :=
  normalizeRequest_idem { method := str "GET", path := str "/pets/?limit=10" } (by decide)

/-! ## C7: parameter inheritance in getOperations -/

/-- Document in which both the operation and the path item declare a
parameter named `id` with `in: path`. -/
def dupParamDoc : ApiDocument :=
  { paths :=
      [(str "/pets/\x7bid\x7d",
        { ops := [(str "get",
            { operationId := some (str "getPetById"),
              parameters := [{ name := str "id", location := str "path", required := true,
                               schema := some { type := some (str "integer") } }] })],
          parameters := [{ name := str "id", location := str "path", required := true }] })] }

/-- C7 counterexample: getOperations concatenates operation-level and
path-level parameters without removing duplicates, so a conflicting
declaration yields two entries with the same name and location. -/
theorem getOperations_params_counterexample :
    ((getOperations dupParamDoc).map
      (fun r => r.parameters.map (fun p => (p.name, p.location))) =
        [[(str "id", str "path"), (str "id", str "path")]])
    ∧ ¬ (∀ r ∈ getOperations dupParamDoc,
      r.parameters.Pairwise (fun p q => ¬ (p.name = q.name ∧ p.location = q.location))) := by
  exact ⟨by decide, by decide⟩

/-- C7 (amended): the merged parameter list of an Operation record is the
plain concatenation of the operation-level parameters followed by the
path-level ones; duplicates are not removed, but any first-match lookup by
name and location resolves to the operation-level entry when both levels
declare one (operation-level precedence by position). -/
theorem getOperations_params_merge (doc : ApiDocument) (path : Str) (item : PathItemObj)
    (m : Str) (opd : OperationDef)
    (hp : (path, item) ∈ doc.paths)
    (hm : (m, opd) ∈ knownMethods.filterMap
      (fun mm => (lookupKey item.ops mm).map (fun o => (mm, o)))) :
    ({ operationId := opd.operationId, parameters := opd.parameters ++ item.parameters,
       requestBody := opd.requestBody, path := path, method := m,
       security :=
         match opd.security with
         | some s => s
         | none => match doc.security with | some s => s | none => [] } : Operation)
      ∈ getOperations doc
    ∧ ∀ (nm loc : Str),
      (opd.parameters ++ item.parameters).find? (fun p => p.name == nm && p.location == loc) =
        (opd.parameters.find? (fun p => p.name == nm && p.location == loc)).or
          (item.parameters.find? (fun p => p.name == nm && p.location == loc)) := by
  constructor
  · apply List.mem_flatMap.mpr
    refine ⟨(path, item), hp, ?_⟩
    apply List.mem_map.mpr
    exact ⟨(m, opd), hm, rfl⟩
  · intro nm loc
    exact List.find?_append

theorem getOperations_params_merge_witness :
    ({ operationId := some (str "getPetById"),
       parameters :=
         [{ name := str "id", location := str "path", required := true,
            schema := some { type := some (str "integer") } },
          { name := str "id", location := str "path", required := true }],
       requestBody := none, path := str "/pets/\x7bid\x7d", method := str "get",
       security := [] } : Operation) ∈ getOperations dupParamDoc :=
  (getOperations_params_merge dupParamDoc (str "/pets/\x7bid\x7d")
    { ops := [(str "get",
        { operationId := some (str "getPetById"),
          parameters := [{ name := str "id", location := str "path", required := true,
                           schema := some { type := some (str "integer") } }] })],
      parameters := [{ name := str "id", location := str "path", required := true }] }
    (str "get")
    { operationId := some (str "getPetById"),
      parameters := [{ name := str "id", location := str "path", required := true,
                       schema := some { type := some (str "integer") } }] }
    (by decide) (by decide)).1

/-! ## C3: the status matcher (spec-modelled) -/

/-- Modelled from the spec: `utils.js` (`OpenAPIUtils.findStatusCodeMatch`) is
not under src — only its test file is. Spec §4.1: return the value under
`map[String(code)]` if that key is present (the key's presence is what
matters, even when its value is null or undefined); else the value under
`map[floor(code/100) + "XX"]` if present; else `map["default"]` if present;
else undefined. -/
def findStatusCodeMatch (code : Nat) (m : List (Str × JsValue)) : JsValue :=
  match lookupKey m (natToStr code) with
  | some v => v
  | none =>
    match lookupKey m (natToStr (code / 100) ++ str "XX") with
    | some v => v
    | none =>
      match lookupKey m (str "default") with
      | some v => v
      | none => JsValue.undefinedV

/-- Status map of spec scenario 3. -/
def statusMapExample : List (Str × JsValue) :=
  [(str "200", .strv (str "OK")), (str "401", .strv (str "U")),
   (str "4XX", .strv (str "E")), (str "400", .strv (str "B")),
   (str "default", .strv (str "D"))]

/-- C3: an exact status key always outranks the wildcard pattern, which
outranks `default`, which outranks the undefined fallback — and the presence
of a key decides, not its value; together with the concrete orderings of spec
scenario 3 and the repository's utils test vectors. -/
theorem findStatusCodeMatch_spec :
    (∀ (code : Nat) (m : List (Str × JsValue)) (v : JsValue),
      (lookupKey m (natToStr code) = some v → findStatusCodeMatch code m = v)
      ∧ (lookupKey m (natToStr code) = none →
          lookupKey m (natToStr (code / 100) ++ str "XX") = some v →
          findStatusCodeMatch code m = v)
      ∧ (lookupKey m (natToStr code) = none →
          lookupKey m (natToStr (code / 100) ++ str "XX") = none →
          lookupKey m (str "default") = some v →
          findStatusCodeMatch code m = v)
      ∧ (lookupKey m (natToStr code) = none →
          lookupKey m (natToStr (code / 100) ++ str "XX") = none →
          lookupKey m (str "default") = none →
          findStatusCodeMatch code m = JsValue.undefinedV))
    ∧ findStatusCodeMatch 400 statusMapExample = .strv (str "B")
    ∧ findStatusCodeMatch 403 statusMapExample = .strv (str "E")
    ∧ findStatusCodeMatch 402 statusMapExample = .strv (str "E")
    ∧ findStatusCodeMatch 500 statusMapExample = .strv (str "D")
    ∧ findStatusCodeMatch 302 [(str "200", .strv (str "OK")),
        (str "201", .strv (str "Created"))] = .undefinedV
    ∧ findStatusCodeMatch 500 [(str "200", .strv (str "OK")),
        (str "500", .nullv), (str "201", .strv (str "Created"))] = .nullv
    ∧ findStatusCodeMatch 500 [(str "200", .strv (str "OK")),
        (str "500", .undefinedV), (str "201", .strv (str "Created"))] = .undefinedV
    ∧ findStatusCodeMatch 23456 [(str "1XX", .strv (str "1")),
        (str "2XX", .strv (str "2")), (str "3XX", .strv (str "3"))] = .undefinedV := by
  refine ⟨fun code m v => ⟨?_, ?_, ?_, ?_⟩, rfl, rfl, rfl, rfl, rfl, rfl, rfl, rfl⟩
  · intro h1
    unfold findStatusCodeMatch
    rw [h1]
  · intro h1 h2
    unfold findStatusCodeMatch
    rw [h1, h2]
  · intro h1 h2 h3
    unfold findStatusCodeMatch
    rw [h1, h2, h3]
  · intro h1 h2 h3
    unfold findStatusCodeMatch
    rw [h1, h2, h3]

theorem findStatusCodeMatch_spec_witness :
    findStatusCodeMatch 403 statusMapExample = .strv (str "E") :=
  ((findStatusCodeMatch_spec.1 403 statusMapExample (.strv (str "E"))).2.1 rfl rfl)

/-! ## C2: dispatcher security step (spec-modelled) -/

/-- The value stored for one scheme name: the registered handler's return
value, or undefined when no handler is registered. -/
def handlerResult (handlers : List (Str × JsValue)) (name : Str) : JsValue :=
  match lookupKey handlers name with
  | some v => v
  | none => JsValue.undefinedV

/-- The security slice of the context the dispatcher builds. -/
structure SecurityContext where
  results : List (Str × JsValue)
  authorized : Bool

/-- Modelled from the spec: `backend.js` (the OpenAPIBackend dispatcher) is
not under src — only its test file and type declarations are. Spec §4.7
step 4 and invariant I7: for each scheme name in every requirement object of
the operation's effective security, invoke the registered security handler
and store its result under `context.security[name]` (undefined when no
handler is registered); `authorized` is true iff some requirement object has
all of its schemes return truthy — OR-of-ANDs, matching OpenAPI and the
glossary's "list of alternative requirement objects" — and an empty
`security` array authorizes. A handler is modelled by the value it returns
for this request. -/
def runSecurityHandlers (security : List SecurityRequirement)
    (handlers : List (Str × JsValue)) : SecurityContext :=
  { results :=
      (security.flatMap (fun requirement => requirement.map (fun kv => kv.1))).map
        (fun name => (name, handlerResult handlers name))
    authorized :=
      security.isEmpty ||
        security.any (fun requirement =>
          requirement.all (fun kv => (handlerResult handlers kv.1).truthy)) }

theorem lookupKey_map_self (l : List Str) (f : Str → JsValue) (name : Str)
    (h : name ∈ l) :
    lookupKey (l.map (fun n => (n, f n))) name = some (f name) := by
  induction l with
  | nil => cases h
  | cons a t ih =>
    rcases List.mem_cons.mp h with rfl | hmem
    · simp [lookupKey]
    · by_cases ha : a = name
      · subst ha; simp [lookupKey]
      · simp only [List.map, lookupKey, if_neg ha]
        exact ih hmem

/-- C2: `context.security.authorized` is true iff some requirement object has
every scheme's handler return truthy (empty security authorizes); each scheme
name's stored result is the handler's return value, undefined when no handler
is registered; plus spec scenario 5 concretely (handler returning 1
authorizes and is stored; returning null does not authorize). -/
theorem security_authorized_iff :
    (∀ (security : List SecurityRequirement) (handlers : List (Str × JsValue)),
      ((runSecurityHandlers security handlers).authorized = true ↔
        (security = [] ∨ ∃ requirement ∈ security, ∀ kv ∈ requirement,
          (handlerResult handlers kv.1).truthy = true)))
    ∧ (∀ (security : List SecurityRequirement) (handlers : List (Str × JsValue)) (name : Str),
      name ∈ security.flatMap (fun requirement => requirement.map (fun kv => kv.1)) →
      lookupKey (runSecurityHandlers security handlers).results name =
        some (handlerResult handlers name))
    ∧ (runSecurityHandlers [[(str "basicAuth", [])]]
        [(str "basicAuth", .numv 1)]).authorized = true
    ∧ lookupKey (runSecurityHandlers [[(str "basicAuth", [])]]
        [(str "basicAuth", .numv 1)]).results (str "basicAuth") = some (.numv 1)
    ∧ (runSecurityHandlers [[(str "basicAuth", [])]]
        [(str "basicAuth", .nullv)]).authorized = false
    ∧ (runSecurityHandlers [] []).authorized = true := by
  refine ⟨fun security handlers => ?_, fun security handlers name h => ?_, rfl, rfl, rfl, rfl⟩
  · simp only [runSecurityHandlers, Bool.or_eq_true, List.isEmpty_iff, List.any_eq_true,
      List.all_eq_true]
  · exact lookupKey_map_self _ _ _ h

/-! ## parseRequest (router.js) and its collaborators (qs, cookie) -/

/-- True if a JS value is exactly `undefined`. -/
def JsValue.isUndefinedV : JsValue → Bool
  | .undefinedV => true
  | _ => false

/-- Replace every occurrence of one character (JS `replace(/c/g, d)`). -/
def replaceChar (s : Str) (a b : Char) : Str := s.map (fun c => if c = a then b else c)

/-- Replace every occurrence of a substring, left to right, non-overlapping
(JS `replace(/pat/g, rep)`); structurally recursive on a character budget. -/
def replaceSubstrAux : Nat → Str → Str → Str → Str
  | 0, s, _, _ => s
  | fuel + 1, s, pat, rep =>
    match s with
    | [] => []
    | c :: rest =>
      if pat.isPrefixOf (c :: rest) ∧ pat ≠ [] then
        rep ++ replaceSubstrAux fuel ((c :: rest).drop pat.length) pat rep
      else c :: replaceSubstrAux fuel rest pat rep

/-- Replace every occurrence of `pat` in `s` by `rep`. -/
def replaceSubstr (s pat rep : Str) : Str := replaceSubstrAux s.length s pat rep

/-- How the qs library merges a duplicate key: collect values into an array. -/
def qsMerge (old new : JsValue) : JsValue :=
  match old with
  | .arr l => .arr (l ++ [new])
  | v => .arr [v, new]

/-- Insert one parsed entry into the accumulating query object. -/
def qsInsert (m : List (Str × JsValue)) (k : Str) (v : JsValue) : List (Str × JsValue) :=
  match lookupKey m k with
  | none => m ++ [(k, v)]
  | some old => setKey m k (qsMerge old v)

/-- Key of one `k=v` query entry: everything before the first `=`. -/
def qsEntryKey (e : Str) : Str := e.takeWhile (fun c => c ≠ '=')

/-- Value of one `k=v` query entry: with the `comma` option a comma-separated
value becomes an array of strings, else the raw string. -/
def qsEntryVal (comma : Bool) (e : Str) : JsValue :=
  let rawv := (e.dropWhile (fun c => c ≠ '=')).drop 1
  if comma ∧ rawv.contains ',' = true then
    .arr ((splitOnChar ',' rawv).map .strv)
  else .strv rawv

/-- Model of `qs.parse` as used by the router: split on `&`, split each entry
at the first `=`, and with the `comma` option turn comma-separated values
into arrays of strings.  Percent-decoding is not modelled: the router's only
encoded inputs (`%20`, `%7C`) are rewritten to commas before this function
runs. -/
def qsParse (queryString : Option Str) (comma : Bool) : List (Str × JsValue) :=
  match queryString with
  | none => []
  | some s =>
    ((splitOnChar '&' s).filter (fun e => !e.isEmpty)).foldl
      (fun acc e => qsInsert acc (qsEntryKey e) (qsEntryVal comma e)) []

/-- Model of `cookie.parse` (RFC 6265): split on `;`, trim, split at the
first `=`; the first occurrence of a name wins. -/
def parseCookies (s : Str) : List (Str × Str) :=
  (splitOnChar ';' s).foldl
    (fun acc pair =>
      let p := trimStr pair
      if p.contains '=' = true then
        let k := p.takeWhile (fun c => c ≠ '=')
        let v := (p.dropWhile (fun c => c ≠ '=')).drop 1
        match lookupKey acc k with
        | some _ => acc
        | none => acc ++ [(k, v)]
      else acc) []

/-- The `_.flatten([cookieHeader]).join('; ')` step: turn the cookie header
value (string, array of strings, or absent) into one string. -/
def cookieHeaderStr : JsValue → Str
  | .undefinedV => []
  | .nullv => []
  | .arr l =>
    match l.map (fun v => match v with | .strv s => s | .undefinedV => [] | .nullv => [] | v2 => v2.jsToString) with
    | [] => []
    | h :: t => t.foldl (fun acc x => acc ++ str "; " ++ x) h
  | v => v.jsToString

/-- Lowercase all header keys (`_.mapKeys`): on a collision the later entry
overwrites the earlier one's value at its original position. -/
def lowerHeaders (headers : List (Str × JsValue)) : List (Str × JsValue) :=
  headers.foldl (fun acc kv => setKey acc (lowerStr kv.1) kv.2) []

/-- The request after parsing (router.js parseRequest's return value). -/
structure ParsedRequest where
  method : Str
  path : Str
  params : List (Str × Str)
  headers : List (Str × JsValue)
  query : JsValue
  cookies : List (Str × Str)
  requestBody : JsValue

/-- Style-aware rewrite of the raw query string before comma re-parsing:
`spaceDelimited` turns spaces and `%20` into commas, `pipeDelimited` turns
`|` and `%7C` into commas. -/
def styleReplace (style : Option Str) (qs : Str) : Str :=
  let c1 := if style == some (str "spaceDelimited") then
    replaceSubstr (replaceChar qs ' ' ',') (str "%20") (str ",") else qs
  let c2 := if style == some (str "pipeDelimited") then
    replaceSubstr (replaceChar c1 '|' ',') (str "%7C") (str ",") else c1
  c2

/-- The `parameter.content && parameter.content['application/json']` test. -/
def hasJsonContent (parameter : Parameter) : Bool :=
  match parameter.content with
  | some c => (lookupKey c (str "application/json")).isSome
  | none => false

/-- One iteration of parseRequest's query-parameter loop for the key `name`:
the value of a parameter carrying `content["application/json"]` is
JSON-parsed — that call is NOT wrapped in try/catch, so a parse failure
throws out of parseRequest (`Except.error`); otherwise an `explode: false`
parameter has the query string re-parsed with commas after the style
rewrite, and the entry replaced by whatever the re-parse assigns to `name`
(undefined when it assigns nothing). -/
def processQueryParam (jsonParse : Str → Option JsValue) (op : Operation)
    (queryString : Option Str) (m : List (Str × JsValue)) (name : Str) :
    Except Str (List (Str × JsValue)) :=
  match lookupKey m name with
  | none => .ok m
  | some v =>
    if v.truthy then
      match op.parameters.find? (fun p => p.name == name && p.location == str "query") with
      | none => .ok m
      | some parameter =>
        if hasJsonContent parameter then
          match jsonParse v.jsToString with
          | some pv => .ok (setKey m name pv)
          | none => .error (str "SyntaxError: Unexpected token in JSON")
        else
          if parameter.explode == some false ∧
              (match queryString with | some q => !q.isEmpty | none => false) = true then
            match queryString with
            | none => .ok m
            | some q =>
              let commaParsed := qsParse (some (styleReplace parameter.style q)) true
              .ok (setKey m name (match lookupKey commaParsed name with
                | some v2 => v2
                | none => JsValue.undefinedV))
          else .ok m
    else .ok m

/-- The `for (const queryParam in query)` loop: process each key in order,
stopping at the first thrown exception. -/
def processQueryParams (jsonParse : Str → Option JsValue) (op : Operation)
    (queryString : Option Str) : List Str → List (Str × JsValue) →
    Except Str (List (Str × JsValue))
  | [], m => .ok m
  | k :: rest, m =>
    match processQueryParam jsonParse op queryString m k with
    | .error e => .error e
    | .ok m2 => processQueryParams jsonParse op queryString rest m2

/-- router.js parseRequest: JSON-parse a non-object body (errors suppressed),
lowercase header keys, parse cookies, take the query either from `req.query`
(when it is object-typed) or from the raw path's query string, normalize,
extract path parameters from the operation's template, and apply the
parameter-style coercions for `in: query`.  The body's JSON.parse failure is
suppressed, but the JSON.parse of a `content: application/json` query
parameter is uncaught: its failure is this function's only thrown exception
(`Except.error`).  `JSON.parse` is supplied as an explicit function
(external collaborator). -/
def parseRequest (jsonParse : Str → Option JsValue) (apiRoot : Str) (req : Request)
    (operation : Option Operation) : Except Str ParsedRequest :=
  let requestBody : JsValue :=
    if req.body.truthy && !req.body.isObjectType then
      match jsonParse req.body.jsToString with
      | some v => v
      | none => req.body
    else req.body
  let headers := lowerHeaders req.headers
  let cookieHeader := match lookupKey headers (str "cookie") with
    | some v => v
    | none => JsValue.undefinedV
  let cookies := parseCookies (cookieHeaderStr cookieHeader)
  let queryString : Option Str := (splitOnChar '?' req.path)[1]?
  let query : JsValue :=
    if req.query.isObjectType then req.query
    else .obj (qsParse queryString false)
  let r := normalizeRequest req
  match operation with
  | none =>
    .ok { method := r.method, path := r.path, params := [], headers := headers,
          query := query, cookies := cookies, requestBody := requestBody }
  | some op =>
    let normalizedPath := normalizePath apiRoot r.path
    let params := (templateParams op.path normalizedPath).getD []
    match query with
    | .obj fields =>
      match processQueryParams jsonParse op queryString (fields.map (fun kv => kv.1)) fields with
      | .error e => .error e
      | .ok fields2 =>
        .ok { method := r.method, path := r.path, params := params, headers := headers,
              query := .obj fields2, cookies := cookies, requestBody := requestBody }
    | v =>
      .ok { method := r.method, path := r.path, params := params, headers := headers,
            query := v, cookies := cookies, requestBody := requestBody }

/-! Association-list lemmas needed for the general explode=false rule. -/

set_option synthInstance.maxHeartbeats 1000000

theorem lookupKey_setKey_self {α : Type} (m : List (Str × α)) (k : Str) (v : α) :
    lookupKey (setKey m k v) k = some v := by
  induction m with
  | nil => simp [setKey, lookupKey]
  | cons kv rest ih =>
    obtain ⟨k2, v2⟩ := kv
    by_cases h : k2 = k
    · simp [setKey, lookupKey, h]
    · simp [setKey, lookupKey, h, ih]

theorem lookupKey_setKey_ne {α : Type} (m : List (Str × α)) (k : Str) (v : α) (k2 : Str)
    (hne : k2 ≠ k) : lookupKey (setKey m k v) k2 = lookupKey m k2 := by
  induction m with
  | nil => simp [setKey, lookupKey, Ne.symm hne]
  | cons kv rest ih =>
    obtain ⟨k3, v3⟩ := kv
    by_cases h : k3 = k
    · subst h
      simp [setKey, lookupKey, Ne.symm hne]
    · simp [setKey, lookupKey, h, ih]

theorem lookupKey_eq_none_iff {α : Type} (m : List (Str × α)) (k : Str) :
    lookupKey m k = none ↔ k ∉ m.map (fun kv => kv.1) := by
  induction m with
  | nil => simp [lookupKey]
  | cons kv rest ih =>
    obtain ⟨k2, v2⟩ := kv
    by_cases h : k2 = k
    · subst h
      simp [lookupKey]
    · simp [lookupKey, h, ih, Ne.symm h]

theorem map_fst_setKey_mem {α : Type} (m : List (Str × α)) (k : Str) (v : α)
    (h : k ∈ m.map (fun kv => kv.1)) :
    (setKey m k v).map (fun kv => kv.1) = m.map (fun kv => kv.1) := by
  induction m with
  | nil => simp at h
  | cons kv rest ih =>
    obtain ⟨k2, v2⟩ := kv
    by_cases hk : k2 = k
    · simp [setKey, hk]
    · rw [List.map_cons] at h
      rcases List.mem_cons.mp h with hc | hc
      · exact absurd hc.symm hk
      · simp [setKey, hk, ih hc]

/-- `qsInsert` keeps the keys of the accumulating query object distinct. -/
theorem qsInsert_nodup (m : List (Str × JsValue)) (k : Str) (v : JsValue)
    (h : (m.map (fun kv => kv.1)).Nodup) :
    ((qsInsert m k v).map (fun kv => kv.1)).Nodup := by
  unfold qsInsert
  cases hl : lookupKey m k with
  | none =>
    have hk : k ∉ m.map (fun kv => kv.1) := (lookupKey_eq_none_iff m k).mp hl
    simp [List.nodup_append, h, hk]
  | some old =>
    have hk : k ∈ m.map (fun kv => kv.1) := by
      by_contra hc
      rw [(lookupKey_eq_none_iff m k).mpr hc] at hl
      exact Option.noConfusion hl
    rw [map_fst_setKey_mem m k _ hk]
    exact h

/-- The object produced by `qs.parse` has pairwise-distinct keys. -/
theorem qsParse_keys_nodup (queryString : Option Str) (comma : Bool) :
    ((qsParse queryString comma).map (fun kv => kv.1)).Nodup := by
  cases queryString with
  | none => simp [qsParse]
  | some s =>
    have hfold : ∀ (l : List Str) (acc : List (Str × JsValue)),
        (acc.map (fun kv => kv.1)).Nodup →
        ((l.foldl (fun a e => qsInsert a (qsEntryKey e) (qsEntryVal comma e)) acc).map
          (fun kv => kv.1)).Nodup := by
      intro l
      induction l with
      | nil => intro acc h; exact h
      | cons e rest ih =>
        intro acc h
        exact ih (qsInsert acc (qsEntryKey e) (qsEntryVal comma e))
          (qsInsert_nodup acc (qsEntryKey e) (qsEntryVal comma e) h)
    exact hfold ((splitOnChar '&' s).filter (fun e => !e.isEmpty)) [] (by simp)

/-- The value the explode=false branch stores for `name`: whatever the comma
re-parse of the style-rewritten query string assigns to that key, or
undefined when it assigns nothing. -/
def explodeTarget (parameter : Parameter) (q name : Str) : JsValue :=
  match lookupKey (qsParse (some (styleReplace parameter.style q)) true) name with
  | some v2 => v2
  | none => JsValue.undefinedV

/-- When no parameter of the operation carries `content: application/json`,
one loop iteration never throws and either leaves the query object unchanged
or overwrites exactly the key it processes. -/
theorem processQueryParam_shape (jsonParse : Str → Option JsValue) (op : Operation)
    (queryString : Option Str) (m : List (Str × JsValue)) (k : Str)
    (hnoj : ∀ p ∈ op.parameters, hasJsonContent p = false) :
    ∃ m2, processQueryParam jsonParse op queryString m k = Except.ok m2 ∧
      (m2 = m ∨ ∃ v, m2 = setKey m k v) := by
  cases hl : lookupKey m k with
  | none =>
    refine ⟨m, ?_, Or.inl rfl⟩
    simp only [processQueryParam, hl]
  | some v =>
    by_cases htr : v.truthy = true
    · cases hf : op.parameters.find? (fun p => p.name == k && p.location == str "query") with
      | none =>
        refine ⟨m, ?_, Or.inl rfl⟩
        simp only [processQueryParam, hl, hf]
        rw [if_pos htr]
      | some parameter =>
        have hnc : hasJsonContent parameter = false :=
          hnoj parameter (List.mem_of_find?_eq_some hf)
        by_cases hcond : (parameter.explode == some false) = true ∧
            (match queryString with | some q2 => !q2.isEmpty | none => false) = true
        · cases queryString with
          | none => simp at hcond
          | some q =>
            have heq : processQueryParam jsonParse op (some q) m k =
                Except.ok (setKey m k (explodeTarget parameter q k)) := by
              simp only [processQueryParam, hl, hf, hnc]
              rw [if_pos htr, if_neg (by simp), if_pos hcond]
              rfl
            exact ⟨_, heq, Or.inr ⟨_, rfl⟩⟩
        · refine ⟨m, ?_, Or.inl rfl⟩
          simp only [processQueryParam, hl, hf, hnc]
          rw [if_pos htr, if_neg (by simp), if_neg hcond]
    · refine ⟨m, ?_, Or.inl rfl⟩
      simp only [processQueryParam, hl]
      rw [if_neg htr]

/-- Splitting the key list splits the loop. -/
theorem processQueryParams_append (jsonParse : Str → Option JsValue) (op : Operation)
    (queryString : Option Str) :
    ∀ (A B : List Str) (m : List (Str × JsValue)),
      processQueryParams jsonParse op queryString (A ++ B) m =
        (match processQueryParams jsonParse op queryString A m with
         | .error e => .error e
         | .ok m2 => processQueryParams jsonParse op queryString B m2) := by
  intro A
  induction A with
  | nil => intro B m; rfl
  | cons k rest ih =>
    intro B m
    simp only [List.cons_append, processQueryParams]
    cases processQueryParam jsonParse op queryString m k with
    | error e => rfl
    | ok m2 => exact ih B m2

/-- Iterations over keys other than `name` never change the value stored at
`name` (and never throw, given no json-content parameter). -/
theorem processQueryParams_frame (jsonParse : Str → Option JsValue) (op : Operation)
    (queryString : Option Str) (name : Str)
    (hnoj : ∀ p ∈ op.parameters, hasJsonContent p = false) :
    ∀ (K : List Str) (m : List (Str × JsValue)), name ∉ K →
      ∃ m2, processQueryParams jsonParse op queryString K m = Except.ok m2 ∧
        lookupKey m2 name = lookupKey m name := by
  intro K
  induction K with
  | nil => intro m _; exact ⟨m, rfl, rfl⟩
  | cons k rest ih =>
    intro m hmem
    have hk : name ≠ k := fun hh => hmem (hh ▸ List.mem_cons_self _ _)
    obtain ⟨m2, hm2, hshape⟩ := processQueryParam_shape jsonParse op queryString m k hnoj
    obtain ⟨m3, hm3, hlook⟩ := ih m2 (fun hh => hmem (List.mem_cons_of_mem _ hh))
    refine ⟨m3, ?_, ?_⟩
    · simp only [processQueryParams, hm2]
      exact hm3
    · rw [hlook]
      rcases hshape with rfl | ⟨v, rfl⟩
      · rfl
      · exact lookupKey_setKey_ne m k v name hk

/-- The loop iteration for `name` itself, when its parameter has
`explode: false`, no json content and the query string is nonempty:
it overwrites the entry with `explodeTarget`. -/
theorem processQueryParam_explode (jsonParse : Str → Option JsValue) (op : Operation)
    (q : Str) (m : List (Str × JsValue)) (name : Str) (parameter : Parameter)
    (v0 : JsValue)
    (hcur : lookupKey m name = some v0) (hv0 : v0.truthy = true)
    (hfind : op.parameters.find? (fun p => p.name == name && p.location == str "query") =
      some parameter)
    (hnojp : hasJsonContent parameter = false)
    (hexp : parameter.explode = some false)
    (hqne : q.isEmpty = false) :
    processQueryParam jsonParse op (some q) m name =
      Except.ok (setKey m name (explodeTarget parameter q name)) := by
  have hc1 : (parameter.explode == some false) = true := by rw [hexp]; rfl
  have hc2 : (match (some q : Option Str) with
      | some q2 => !q2.isEmpty | none => false) = true := by
    show (!q.isEmpty) = true
    rw [hqne]
    exact Bool.not_false
  simp only [processQueryParam, hcur, hfind, hnojp]
  rw [if_pos hv0, if_neg (by simp), if_pos ⟨hc1, hc2⟩]
  rfl

/-- Running the whole loop over the keys of a nodup-keyed query object that
maps `name` to a truthy value: the result is `ok`, with `name` now mapped
to `explodeTarget`. -/
theorem processQueryParams_run (jsonParse : Str → Option JsValue) (op : Operation)
    (q : Str) (name : Str) (parameter : Parameter) (v0 : JsValue)
    (fields : List (Str × JsValue))
    (hnd : (fields.map (fun kv => kv.1)).Nodup)
    (hv : lookupKey fields name = some v0) (hv0 : v0.truthy = true)
    (hfind : op.parameters.find? (fun p => p.name == name && p.location == str "query") =
      some parameter)
    (hnoj : ∀ p ∈ op.parameters, hasJsonContent p = false)
    (hexp : parameter.explode = some false)
    (hqne : q.isEmpty = false) :
    ∃ fields2,
      processQueryParams jsonParse op (some q) (fields.map (fun kv => kv.1)) fields =
        Except.ok fields2 ∧
      lookupKey fields2 name = some (explodeTarget parameter q name) := by
  have hmem : name ∈ fields.map (fun kv => kv.1) := by
    by_contra hc
    rw [(lookupKey_eq_none_iff fields name).mpr hc] at hv
    exact Option.noConfusion hv
  obtain ⟨K1, K2, hK⟩ := List.append_of_mem hmem
  rw [hK] at hnd
  have hnotK2 : name ∉ K2 := (List.nodup_cons.mp (List.Nodup.of_append_right hnd)).1
  have hnotK1 : name ∉ K1 := fun hin =>
    (List.disjoint_of_nodup_append hnd) hin (List.mem_cons_self _ _)
  obtain ⟨m1, hA, hlook1⟩ :=
    processQueryParams_frame jsonParse op (some q) name hnoj K1 fields hnotK1
  have hcur : lookupKey m1 name = some v0 := by rw [hlook1, hv]
  have hstep := processQueryParam_explode jsonParse op q m1 name parameter v0 hcur hv0 hfind
    (hnoj parameter (List.mem_of_find?_eq_some hfind)) hexp hqne
  obtain ⟨m2, hB, hlook2⟩ := processQueryParams_frame jsonParse op (some q) name hnoj K2
    (setKey m1 name (explodeTarget parameter q name)) hnotK2
  refine ⟨m2, ?_, ?_⟩
  · rw [hK, processQueryParams_append jsonParse op (some q) K1 (name :: K2) fields, hA]
    simp only [processQueryParams, hstep]
    exact hB
  · rw [hlook2, lookupKey_setKey_self]

/-! ## C6: explode=false query parameters -/

/-- Operation `GET /pets` with a single query parameter `a` declared with
`explode: false`, an array schema and the given style. -/
def opExplode (style : Option Str) : Operation :=
  { operationId := some (str "getPets"), path := str "/pets", method := str "get",
    parameters := [{ name := str "a", location := str "query", style := style,
                     explode := some false, schema := some { type := some (str "array") } }] }

/-- The value parseRequest leaves for query parameter `a` (none when the
request failed to parse). -/
def queryValueA (r : Except Str ParsedRequest) : Option JsValue :=
  match r with
  | .ok parsed =>
    match parsed.query with
    | .obj fields => lookupKey fields (str "a")
    | _ => none
  | .error _ => none

/-- C6 counterexample: for an `explode: false` array parameter the comma
re-parse of a single value without commas yields the bare string `"1"`, not
an array — parseRequest does not always replace the entry with an array. -/
theorem parseRequest_explode_counterexample :
    queryValueA (parseRequest (fun _ => none) (str "/")
      { method := str "get", path := str "/pets?a=1" } (some (opExplode none))) =
      some (.strv (str "1"))
    ∧ ∀ elems : List JsValue, JsValue.strv (str "1") ≠ JsValue.arr elems := by
  exact ⟨rfl, fun elems h => JsValue.noConfusion h⟩

/-- C6 (amended): for every operation whose query parameters carry no
`content: application/json`, every parameter declared `in: query` with
`explode: false`, and every request whose `query` field is not object-typed
and whose path carries a nonempty query string assigning a truthy value to
the parameter's name, parseRequest succeeds and replaces that query entry by
the value the comma-option re-parse of the style-rewritten query string
(spaces and `%20`, or `|` and `%7C`, become commas for the spaceDelimited
and pipeDelimited styles) assigns to the name — undefined if it assigns
nothing: an array exactly when the rewritten value for the name contains a
comma, not in general.  Concretely `?a=1,2,3` with form style, `?a=1 2 3`
and `?a=1%202%203` with spaceDelimited, `?a=1|2|3` and `?a=1%7C2%7C3` with
pipeDelimited all give `["1","2","3"]`, while `?a=1` gives the bare string
`"1"`. -/
theorem parseRequest_explode_reparse :
    (∀ (jsonParse : Str → Option JsValue) (apiRoot : Str) (req : Request)
      (op : Operation) (name q : Str) (parameter : Parameter) (v0 : JsValue),
      req.query.isObjectType = false →
      (splitOnChar '?' req.path)[1]? = some q →
      q.isEmpty = false →
      lookupKey (qsParse (some q) false) name = some v0 →
      v0.truthy = true →
      op.parameters.find? (fun p => p.name == name && p.location == str "query") =
        some parameter →
      (∀ p ∈ op.parameters, hasJsonContent p = false) →
      parameter.explode = some false →
      ∃ parsed, parseRequest jsonParse apiRoot req (some op) = Except.ok parsed ∧
        ∃ fields2, parsed.query = JsValue.obj fields2 ∧
          lookupKey fields2 name = some (explodeTarget parameter q name)) ∧
    queryValueA (parseRequest (fun _ => none) (str "/")
      { method := str "get", path := str "/pets?a=1,2,3" } (some (opExplode none))) =
      some (.arr [.strv (str "1"), .strv (str "2"), .strv (str "3")])
    ∧ queryValueA (parseRequest (fun _ => none) (str "/")
        { method := str "get", path := str "/pets?a=1 2 3" }
        (some (opExplode (some (str "spaceDelimited"))))) =
      some (.arr [.strv (str "1"), .strv (str "2"), .strv (str "3")])
    ∧ queryValueA (parseRequest (fun _ => none) (str "/")
        { method := str "get", path := str "/pets?a=1%202%203" }
        (some (opExplode (some (str "spaceDelimited"))))) =
      some (.arr [.strv (str "1"), .strv (str "2"), .strv (str "3")])
    ∧ queryValueA (parseRequest (fun _ => none) (str "/")
        { method := str "get", path := str "/pets?a=1|2|3" }
        (some (opExplode (some (str "pipeDelimited"))))) =
      some (.arr [.strv (str "1"), .strv (str "2"), .strv (str "3")])
    ∧ queryValueA (parseRequest (fun _ => none) (str "/")
        { method := str "get", path := str "/pets?a=1%7C2%7C3" }
        (some (opExplode (some (str "pipeDelimited"))))) =
      some (.arr [.strv (str "1"), .strv (str "2"), .strv (str "3")])
    ∧ queryValueA (parseRequest (fun _ => none) (str "/")
        { method := str "get", path := str "/pets?a=1" } (some (opExplode none))) =
      some (.strv (str "1")) := by
  refine ⟨?_, rfl, rfl, rfl, rfl, rfl, rfl⟩
  intro jsonParse apiRoot req op name q parameter v0 hqobj hqs hqne hv hv0 hfind hnoj hexp
  obtain ⟨fields2, hpp, hlook⟩ := processQueryParams_run jsonParse op q name parameter v0
    (qsParse (some q) false) (qsParse_keys_nodup (some q) false) hv hv0 hfind hnoj hexp hqne
  simp only [parseRequest, hqobj, Bool.false_eq_true, if_false, hqs, hpp]
  exact ⟨_, rfl, fields2, rfl, hlook⟩

/-- Witness: the general explode=false rule instantiated at the concrete
request `GET /pets?a=1,2,3`. -/
theorem parseRequest_explode_reparse_witness :
    ∃ parsed, parseRequest (fun _ => none) (str "/")
        { method := str "get", path := str "/pets?a=1,2,3" } (some (opExplode none)) =
        Except.ok parsed ∧
      ∃ fields2, parsed.query = JsValue.obj fields2 ∧
        lookupKey fields2 (str "a") =
          some (explodeTarget
            { name := str "a", location := str "query", style := none,
              explode := some false, schema := some { type := some (str "array") } }
            (str "a=1,2,3") (str "a")) :=
  parseRequest_explode_reparse.1 (fun _ => none) (str "/")
    { method := str "get", path := str "/pets?a=1,2,3" } (opExplode none)
    (str "a") (str "a=1,2,3")
    { name := str "a", location := str "query", style := none,
      explode := some false, schema := some { type := some (str "array") } }
    (JsValue.strv (str "1,2,3"))
    rfl rfl rfl rfl rfl rfl
    (by
      intro p hp
      cases hp with
      | head => rfl
      | tail _ h2 => cases h2)
    rfl

/-! ## validateRequest (src/validation.js) -/

/-- One Ajv-style validation error, as far as the engine constructs or
forwards one. -/
structure ValidationError where
  keyword : Str
  dataPath : Str
  schemaPath : Str
  message : Str

/-- The result validateRequest returns. -/
structure ValidationResult where
  valid : Bool
  errors : Option (List ValidationError)

/-- The `parameters` object assembled by validateRequest and handed to each
compiled validator; nil buckets are omitted (`_.omitBy(..., _.isNil)`). -/
structure RequestValidationInput where
  path : Option (List (Str × Str))
  query : Option JsValue
  header : Option (List (Str × JsValue))
  cookie : Option (List (Str × Str))
  requestBody : Option JsValue

/-- A compiled request validator: the Schema Engine is external, so a
validator is just a function from the assembled input to its errors. -/
abbrev RequestValidator : Type := RequestValidationInput → List ValidationError

/-- The `operation` argument of validateRequest: absent, an operationId, or
an Operation object. -/
inductive OperationRef where
  | noRef
  | byId (id : Str)
  | byOp (op : Operation)

/-- The synthetic error recorded for a malformed JSON body. The source copies
the JSON exception's text into `message`; that text is not modelled. -/
def parseBodyError : ValidationError :=
  { keyword := str "parse", dataPath := str "", schemaPath := str "#/requestBody",
    message := str "" }

/-- validation.js validateRequest: resolve the operation (else throw
`Unknown operation`), parse the request, widen singular string query values
to arrays where the parameter schema is an array, omit nil parameter buckets,
record a synthetic `parse` error when a non-object body fails to JSON-parse
while `application/json` is the only declared body media type, include the
body when it is an object or the content-type is JSON, then run every
compiled validator and accumulate errors without short-circuiting. -/
def validateRequest (jsonParse : Str → Option JsValue)
    (requestValidators : Str → List RequestValidator)
    (doc : ApiDocument) (apiRoot : Str)
    (req : Request) (operationRef : OperationRef) : Except Str ValidationResult :=
  let opResolved : Option Operation :=
    match operationRef with
    | .noRef =>
      match matchOperationRes doc apiRoot req with
      | .found op => some op
      | _ => none
    | .byId id => getOperation doc id
    | .byOp op => some op
  match opResolved with
  | none => .error (str "Unknown operation")
  | some op =>
    match op.operationId with
    | none => .error (str "Unknown operation")
    | some operationId =>
      let validators := requestValidators operationId
      match parseRequest jsonParse apiRoot req (some op) with
      | .error e => .error e
      | .ok parsed =>
      let query2 : JsValue :=
        match parsed.query with
        | .obj fields =>
          .obj ((fields.map (fun kv => kv.1)).foldl
            (fun acc name =>
              match lookupKey acc name with
              | some (.strv s) =>
                (match op.parameters.find?
                    (fun p => p.name == name && p.location == str "query") with
                 | some parameter =>
                   (match parameter.schema with
                    | some sch =>
                      if sch.type == some (str "array") then
                        setKey acc name (.arr [.strv s])
                      else acc
                    | none => acc)
                 | none => acc)
              | _ => acc) fields)
        | v => v
      let parseErrors : List ValidationError :=
        if !req.body.isObjectType && !req.body.isUndefinedV then
          let payloadFormats :=
            match op.requestBody with
            | some rb => rb.content.map (fun kv => kv.1)
            | none => []
          if payloadFormats = [str "application/json"] then
            match jsonParse req.body.jsToString with
            | some _ => []
            | none => [parseBodyError]
          else []
        else []
      let input : RequestValidationInput :=
        { path := some parsed.params
          query := match query2 with | .nullv => none | v => some v
          header := some parsed.headers
          cookie := some parsed.cookies
          requestBody :=
            if parsed.requestBody.isObjectType ||
                (match lookupKey parsed.headers (str "content-type") with
                 | some (.strv s) => s == str "application/json"
                 | _ => false) then
              some parsed.requestBody
            else none }
      let allErrors := parseErrors ++ validators.foldl (fun acc validate => acc ++ validate input) []
      .ok (if allErrors.isEmpty then { valid := true, errors := none }
           else { valid := false, errors := some allErrors })

/-- True when an Except value carries no exception. -/
def exceptIsOk {α : Type} : Except Str α → Bool
  | .ok _ => true
  | .error _ => false

/-- C5 (amended): provided parsing the request itself does not throw (a
JSON.parse failure on a `content: application/json` query parameter is
uncaught and propagates out of validateRequest), when the body is present
and not object-typed and the only declared body media type is
application/json, a JSON.parse failure on the raw body adds the synthetic
`\x7bkeyword: "parse", schemaPath: "#/requestBody"\x7d` error at the front
of the accumulated errors, making the result invalid; validateRequest
returns a result (`Except.ok`) — the malformed body itself is never
thrown. -/
theorem validateRequest_parse_error (jsonParse : Str → Option JsValue)
    (requestValidators : Str → List RequestValidator) (doc : ApiDocument) (apiRoot : Str)
    (req : Request) (op : Operation) (oid : Str) (rb : RequestBodyObj)
    (hoid : op.operationId = some oid)
    (hobj : req.body.isObjectType = false)
    (hundef : req.body.isUndefinedV = false)
    (hrb : op.requestBody = some rb)
    (hkeys : rb.content.map (fun kv => kv.1) = [str "application/json"])
    (hfail : jsonParse req.body.jsToString = none)
    (hparse : exceptIsOk (parseRequest jsonParse apiRoot req (some op)) = true) :
    ∃ res, validateRequest jsonParse requestValidators doc apiRoot req (.byOp op) =
        Except.ok res
      ∧ res.valid = false
      ∧ ∃ errs, res.errors = some errs
        ∧ errs.head? = some parseBodyError
        ∧ parseBodyError.keyword = str "parse"
        ∧ parseBodyError.schemaPath = str "#/requestBody" := by
  obtain ⟨parsed, hp⟩ : ∃ parsed, parseRequest jsonParse apiRoot req (some op) =
      Except.ok parsed := by
    cases hpr : parseRequest jsonParse apiRoot req (some op) with
    | ok r => exact ⟨r, rfl⟩
    | error e => rw [hpr] at hparse; simp [exceptIsOk] at hparse
  simp only [validateRequest, hoid, hp, hrb, hobj, hundef, hfail, hkeys]
  simp only [Bool.not_false, Bool.and_self, if_true, List.map]
  exact ⟨_, rfl, rfl, _, rfl, rfl, rfl, rfl⟩

theorem validateRequest_parse_error_witness :
    ∃ res, validateRequest (fun _ => none) (fun _ => []) petDoc (str "/")
        { method := str "get", path := str "/pets", body := .strv (str "\x7bbad json") }
        (.byOp { operationId := some (str "createPet"), path := str "/pets",
                 method := str "post",
                 requestBody := some { content := [(str "application/json", {})] } }) =
      Except.ok res
      ∧ res.valid = false
      ∧ ∃ errs, res.errors = some errs
        ∧ errs.head? = some parseBodyError
        ∧ parseBodyError.keyword = str "parse"
        ∧ parseBodyError.schemaPath = str "#/requestBody" :=
  validateRequest_parse_error (fun _ => none) (fun _ => []) petDoc (str "/")
    { method := str "get", path := str "/pets", body := .strv (str "\x7bbad json") }
    { operationId := some (str "createPet"), path := str "/pets",
      method := str "post",
      requestBody := some { content := [(str "application/json", {})] } }
    (str "createPet") { content := [(str "application/json", {})] }
    rfl rfl rfl rfl rfl rfl rfl

/-- Operation whose body declares application/json as its only media type
and which also declares a query parameter `a` carrying
`content: application/json`. -/
def opJsonQuery : Operation :=
  { operationId := some (str "createPet"), path := str "/pets", method := str "post",
    requestBody := some { content := [(str "application/json", {})] },
    parameters := [{ name := str "a", location := str "query",
                     content := some [(str "application/json", {})] }] }

/-- C5 counterexample: a request inside the claim's hypothesis space (body
present and not an object, application/json the only declared body media
type) for which validateRequest nevertheless throws — the JSON.parse of the
`content: application/json` query parameter at router.js:194 is not wrapped
in try/catch, so its failure propagates instead of ending up in the
accumulated errors. -/
theorem validateRequest_parse_error_counterexample :
    ((JsValue.strv (str "bad")).isObjectType = false)
    ∧ ((JsValue.strv (str "bad")).isUndefinedV = false)
    ∧ ((match opJsonQuery.requestBody with
        | some rb => rb.content.map (fun kv => kv.1)
        | none => []) = [str "application/json"])
    ∧ validateRequest (fun _ => none) (fun _ => []) petDoc (str "/")
        { method := str "post", path := str "/pets?a=oops", body := .strv (str "bad") }
        (.byOp opJsonQuery) =
      Except.error (str "SyntaxError: Unexpected token in JSON") := by
  exact ⟨rfl, rfl, rfl, rfl⟩

/-! ## C9: the cycle breaker (validation.js decycle)

Object identity and reference cycles cannot live inside a Lean inductive
value, so the input graph is represented by an explicit heap: `JVal.ref a`
points at slot `a` of a list of arrays/objects, and cycles are heap slots
that (transitively) point back at themselves.  `derez` mirrors the source's
recursion with the WeakMap as an explicit visited list; the character budget
`fuel` is consumed once per expansion of a not-yet-visited slot, so
`heap.length + 1` always suffices — that sufficiency is the model's form of
the termination claim.  The output is an ordinary inductive tree (no
references), so it is acyclic by construction and any serializer over it is a
total structural function. -/

/-- A primitive or exempt built-in passed through unchanged by decycle:
null, undefined, booleans, numbers, strings, and instances of Boolean, Date,
Number, RegExp, String (the source's explicit `instanceof` exemptions). -/
inductive DPrim where
  | nullp
  | undefp
  | boolp (b : Bool)
  | nump (n : Int)
  | strp (s : Str)
  | datep (ms : Int)
  | regexp (src : Str)
  | boxed (tag : Str)
deriving DecidableEq

/-- An input value: a primitive, or a reference into the heap. -/
inductive JVal where
  | prim (p : DPrim)
  | ref (a : Nat)
deriving DecidableEq

/-- A heap slot: a shared array or plain object. -/
inductive HObj where
  | arrO (elems : List JVal)
  | objO (fields : List (Str × JVal))

/-- Output of decycle: a tree, where a revisited identity has become a
`\x7b$ref: <json pointer>\x7d` leaf. -/
inductive OVal where
  | prim (p : DPrim)
  | refO (path : Str)
  | arrO (elems : List OVal)
  | objO (fields : List (Str × OVal))

/-- Lookup in the visited map (address → path of first occurrence). -/
def lookupNat (m : List (Nat × Str)) (k : Nat) : Option Str :=
  match m with
  | [] => none
  | (k2, v) :: rest => if k2 = k then some v else lookupNat rest k

/-- Walk an array's elements left to right, threading the visited map and
appending `/<index>` to the path (decycle's array branch). -/
def derezFoldArr (g : List (Nat × Str) → JVal → Str → Option (List (Nat × Str) × OVal))
    (path : Str) : List (Nat × Str) → List JVal → Nat →
    Option (List (Nat × Str) × List OVal)
  | vst, [], _ => some (vst, [])
  | vst, e :: rest, i =>
    match g vst e (path ++ str "/" ++ natToStr i) with
    | none => none
    | some (v2, o) =>
      match derezFoldArr g path v2 rest (i + 1) with
      | none => none
      | some (v3, os) => some (v3, o :: os)

/-- Walk an object's fields in key order, threading the visited map and
appending `/<name>` to the path (decycle's object branch). -/
def derezFoldObj (g : List (Nat × Str) → JVal → Str → Option (List (Nat × Str) × OVal))
    (path : Str) : List (Nat × Str) → List (Str × JVal) →
    Option (List (Nat × Str) × List (Str × OVal))
  | vst, [] => some (vst, [])
  | vst, kv :: rest =>
    match g vst kv.2 (path ++ str "/" ++ kv.1) with
    | none => none
    | some (v2, o) =>
      match derezFoldObj g path v2 rest with
      | none => none
      | some (v3, os) => some (v3, (kv.1, o) :: os)

/-- The source's inner `derez`: primitives (and the exempt built-ins) pass
through; a revisited reference becomes `\x7b$ref: <path of first
occurrence>\x7d`; otherwise the slot is recorded in the visited map and its
contents replicated.  `none` means the character budget ran out (never
happens with budget `heap.length + 1`, see `decycle_spec`). -/
def derez (heap : List HObj) : Nat → List (Nat × Str) → JVal → Str →
    Option (List (Nat × Str) × OVal)
  | 0, _, _, _ => none
  | _ + 1, visited, .prim p, _ => some (visited, .prim p)
  | fuel + 1, visited, .ref a, path =>
    match lookupNat visited a with
    | some oldPath => some (visited, .refO oldPath)
    | none =>
      match heap[a]? with
      | none => some ((a, path) :: visited, .prim .nullp)
      | some (.arrO elems) =>
        match derezFoldArr (derez heap fuel) path ((a, path) :: visited) elems 0 with
        | none => none
        | some (v2, os) => some (v2, .arrO os)
      | some (.objO fields) =>
        match derezFoldObj (derez heap fuel) path ((a, path) :: visited) fields with
        | none => none
        | some (v2, os) => some (v2, .objO os)

/-- validation.js decycle: replicate the value from the synthetic root `#`. -/
def decycle (heap : List HObj) (v : JVal) : Option OVal :=
  (derez heap (heap.length + 1) [] v (str "#")).map (fun t => t.2)

/-- A JSON serializer over decycle's output; it is a plain structural
function on a finite tree, so it terminates on every output. -/
def serializeOVal : OVal → Str
  | .prim _ => str "null"
  | .refO p => str "\x7b\"$ref\":\"" ++ p ++ str "\"\x7d"
  | .arrO l =>
    str "[" ++ (l.attach.map (fun e => serializeOVal e.1)).foldl (fun a b => a ++ b) [] ++ str "]"
  | .objO fs =>
    str "\x7b" ++
      (fs.attach.map (fun e => e.1.1 ++ str ":" ++ serializeOVal e.1.2)).foldl
        (fun a b => a ++ b) [] ++ str "\x7d"
decreasing_by
  all_goals simp only [OVal.arrO.sizeOf_spec, OVal.objO.sizeOf_spec]
  · rcases e with ⟨v, hmem⟩
    have h1 := List.sizeOf_lt_of_mem hmem
    have h2 : sizeOf v < 1 + sizeOf l := by omega
    exact h2
  · rcases e with ⟨⟨x, y⟩, hmem⟩
    have h1 := List.sizeOf_lt_of_mem hmem
    simp only [Prod.mk.sizeOf_spec] at h1
    have h2 : sizeOf y < 1 + sizeOf fs := by omega
    exact h2

/-- Number of heap slots not yet recorded in the visited map. -/
def unvisitedCount (heap : List HObj) (visited : List (Nat × Str)) : Nat :=
  ((List.range heap.length).filter (fun a => (lookupNat visited a).isNone)).length

theorem lookupNat_append_isSome (t m : List (Nat × Str)) (a : Nat)
    (h : (lookupNat m a).isSome = true) : (lookupNat (t ++ m) a).isSome = true := by
  induction t with
  | nil => simpa using h
  | cons kv rest ih =>
    obtain ⟨k, v⟩ := kv
    by_cases hk : k = a
    · simp [lookupNat, hk]
    · simpa [lookupNat, hk] using ih

theorem length_filter_mono {α : Type} (l : List α) (p q : α → Bool)
    (h : ∀ a, p a = true → q a = true) :
    (l.filter p).length ≤ (l.filter q).length := by
  induction l with
  | nil => simp
  | cons a t ih =>
    cases hp : p a with
    | true =>
      have hq := h a hp
      simp only [List.filter_cons, hp, hq, if_true, List.length_cons]
      omega
    | false =>
      cases hq : q a with
      | true =>
        have h2 : (List.filter q (a :: t)).length = (List.filter q t).length + 1 := by
          simp [List.filter_cons, hq]
        have h3 : (List.filter p (a :: t)).length = (List.filter p t).length := by
          simp [List.filter_cons, hp]
        omega
      | false =>
        simpa [List.filter_cons, hp, hq] using ih

theorem length_filter_lt {α : Type} (l : List α) (p q : α → Bool)
    (h : ∀ a, p a = true → q a = true) (x : α) (hx : x ∈ l)
    (hqx : q x = true) (hpx : p x = false) :
    (l.filter p).length < (l.filter q).length := by
  induction l with
  | nil => cases hx
  | cons a t ih =>
    rcases List.mem_cons.mp hx with rfl | hxt
    · have hmono := length_filter_mono t p q h
      simp only [List.filter_cons, hpx, hqx, if_true, Bool.false_eq_true, if_false,
        List.length_cons]
      omega
    · cases hp : p a with
      | true =>
        have hq := h a hp
        have := ih hxt
        simp only [List.filter_cons, hp, hq, if_true, List.length_cons]
        omega
      | false =>
        cases hq : q a with
        | true =>
          have := ih hxt
          simp only [List.filter_cons, hp, hq, if_true, Bool.false_eq_true, if_false,
            List.length_cons]
          omega
        | false =>
          simpa [List.filter_cons, hp, hq] using ih hxt

theorem unvisitedCount_le_of_suffix (heap : List HObj) (v1 v2 : List (Nat × Str))
    (h : v1 <:+ v2) : unvisitedCount heap v2 ≤ unvisitedCount heap v1 := by
  obtain ⟨t, rfl⟩ := h
  apply length_filter_mono
  intro a ha
  rw [Option.isNone_iff_eq_none] at ha ⊢
  cases hv : lookupNat v1 a with
  | none => rfl
  | some p =>
    have := lookupNat_append_isSome t v1 a (by simp [hv])
    rw [ha] at this
    cases this

theorem unvisitedCount_cons_lt (heap : List HObj) (visited : List (Nat × Str))
    (a : Nat) (p0 : Str) (ha : a < heap.length) (hnone : lookupNat visited a = none) :
    unvisitedCount heap ((a, p0) :: visited) < unvisitedCount heap visited := by
  apply length_filter_lt _ _ _ ?_ a (List.mem_range.mpr ha) (by simp [hnone])
    (by simp [lookupNat])
  intro x hx
  by_cases hax : a = x
  · simp [lookupNat, hax] at hx
  · simpa [lookupNat, hax] using hx

theorem derezFoldArr_suffix (g : List (Nat × Str) → JVal → Str →
      Option (List (Nat × Str) × OVal)) (path : Str)
    (hg : ∀ vst e pth v2 o, g vst e pth = some (v2, o) → vst <:+ v2) :
    ∀ (l : List JVal) (vst : List (Nat × Str)) (i : Nat) v3 os,
      derezFoldArr g path vst l i = some (v3, os) → vst <:+ v3 := by
  intro l
  induction l with
  | nil =>
    intro vst i v3 os h
    simp only [derezFoldArr, Option.some.injEq, Prod.mk.injEq] at h
    rw [← h.1]
  | cons e rest ih =>
    intro vst i v3 os h
    cases hg1 : g vst e (path ++ str "/" ++ natToStr i) with
    | none => simp only [derezFoldArr, hg1] at h; exact Option.noConfusion h
    | some p =>
      obtain ⟨v2, o⟩ := p
      cases h2 : derezFoldArr g path v2 rest (i + 1) with
      | none => simp only [derezFoldArr, hg1, h2] at h; exact Option.noConfusion h
      | some q =>
        obtain ⟨v3q, osq⟩ := q
        simp only [derezFoldArr, hg1, h2, Option.some.injEq, Prod.mk.injEq] at h
        rw [← h.1]
        exact (hg _ _ _ _ _ hg1).trans (ih v2 (i + 1) v3q osq h2)

theorem derezFoldObj_suffix (g : List (Nat × Str) → JVal → Str →
      Option (List (Nat × Str) × OVal)) (path : Str)
    (hg : ∀ vst e pth v2 o, g vst e pth = some (v2, o) → vst <:+ v2) :
    ∀ (l : List (Str × JVal)) (vst : List (Nat × Str)) v3 os,
      derezFoldObj g path vst l = some (v3, os) → vst <:+ v3 := by
  intro l
  induction l with
  | nil =>
    intro vst v3 os h
    simp only [derezFoldObj, Option.some.injEq, Prod.mk.injEq] at h
    rw [← h.1]
  | cons kv rest ih =>
    intro vst v3 os h
    cases hg1 : g vst kv.2 (path ++ str "/" ++ kv.1) with
    | none => simp only [derezFoldObj, hg1] at h; exact Option.noConfusion h
    | some p =>
      obtain ⟨v2, o⟩ := p
      cases h2 : derezFoldObj g path v2 rest with
      | none => simp only [derezFoldObj, hg1, h2] at h; exact Option.noConfusion h
      | some q =>
        obtain ⟨v3q, osq⟩ := q
        simp only [derezFoldObj, hg1, h2, Option.some.injEq, Prod.mk.injEq] at h
        rw [← h.1]
        exact (hg _ _ _ _ _ hg1).trans (ih v2 v3q osq h2)

theorem derez_suffix (heap : List HObj) : ∀ (fuel : Nat) (visited : List (Nat × Str))
    (v : JVal) (path : Str) (v2 : List (Nat × Str)) (o : OVal),
    derez heap fuel visited v path = some (v2, o) → visited <:+ v2 := by
  intro fuel
  induction fuel with
  | zero => intro visited v path v2 o h; cases h
  | succ fuel ih =>
    intro visited v path v2 o h
    cases v with
    | prim p =>
      simp only [derez, Option.some.injEq, Prod.mk.injEq] at h
      rw [← h.1]
    | ref a =>
      cases hl : lookupNat visited a with
      | some old =>
        simp only [derez, hl, Option.some.injEq, Prod.mk.injEq] at h
        rw [← h.1]
      | none =>
        cases hheap : heap[a]? with
        | none =>
          simp only [derez, hl, hheap, Option.some.injEq, Prod.mk.injEq] at h
          rw [← h.1]
          exact ⟨[(a, path)], rfl⟩
        | some ho =>
          cases ho with
          | arrO elems =>
            cases hf : derezFoldArr (derez heap fuel) path ((a, path) :: visited) elems 0 with
            | none => simp only [derez, hl, hheap, hf] at h; exact Option.noConfusion h
            | some q =>
              obtain ⟨vq, osq⟩ := q
              simp only [derez, hl, hheap, hf, Option.some.injEq, Prod.mk.injEq] at h
              rw [← h.1]
              have hstep : visited <:+ (a, path) :: visited := ⟨[(a, path)], rfl⟩
              exact hstep.trans
                (derezFoldArr_suffix (derez heap fuel) path
                  (fun vst e pth w o2 hg2 => ih vst e pth w o2 hg2) elems _ 0 vq osq hf)
          | objO fields =>
            cases hf : derezFoldObj (derez heap fuel) path ((a, path) :: visited) fields with
            | none => simp only [derez, hl, hheap, hf] at h; exact Option.noConfusion h
            | some q =>
              obtain ⟨vq, osq⟩ := q
              simp only [derez, hl, hheap, hf, Option.some.injEq, Prod.mk.injEq] at h
              rw [← h.1]
              have hstep : visited <:+ (a, path) :: visited := ⟨[(a, path)], rfl⟩
              exact hstep.trans
                (derezFoldObj_suffix (derez heap fuel) path
                  (fun vst e pth w o2 hg2 => ih vst e pth w o2 hg2) fields _ vq osq hf)

theorem derezFoldArr_isSome (heap : List HObj)
    (g : List (Nat × Str) → JVal → Str → Option (List (Nat × Str) × OVal))
    (path : Str) (bound : Nat)
    (hg_suffix : ∀ vst e pth v2 o, g vst e pth = some (v2, o) → vst <:+ v2)
    (hg_total : ∀ vst e pth, unvisitedCount heap vst < bound → (g vst e pth).isSome = true) :
    ∀ (l : List JVal) (vst : List (Nat × Str)) (i : Nat),
      unvisitedCount heap vst < bound → (derezFoldArr g path vst l i).isSome = true := by
  intro l
  induction l with
  | nil => intro vst i _; simp [derezFoldArr]
  | cons e rest ih =>
    intro vst i hcount
    have h1 := hg_total vst e (path ++ str "/" ++ natToStr i) hcount
    cases hg1 : g vst e (path ++ str "/" ++ natToStr i) with
    | none => rw [hg1] at h1; cases h1
    | some p =>
      obtain ⟨v2, o⟩ := p
      have hcount2 : unvisitedCount heap v2 < bound :=
        Nat.lt_of_le_of_lt (unvisitedCount_le_of_suffix heap vst v2 (hg_suffix _ _ _ _ _ hg1))
          hcount
      have h2 := ih v2 (i + 1) hcount2
      cases h3 : derezFoldArr g path v2 rest (i + 1) with
      | none => rw [h3] at h2; cases h2
      | some q => simp only [derezFoldArr, hg1, h3]; rfl

theorem derezFoldObj_isSome (heap : List HObj)
    (g : List (Nat × Str) → JVal → Str → Option (List (Nat × Str) × OVal))
    (path : Str) (bound : Nat)
    (hg_suffix : ∀ vst e pth v2 o, g vst e pth = some (v2, o) → vst <:+ v2)
    (hg_total : ∀ vst e pth, unvisitedCount heap vst < bound → (g vst e pth).isSome = true) :
    ∀ (l : List (Str × JVal)) (vst : List (Nat × Str)),
      unvisitedCount heap vst < bound → (derezFoldObj g path vst l).isSome = true := by
  intro l
  induction l with
  | nil => intro vst _; simp [derezFoldObj]
  | cons kv rest ih =>
    intro vst hcount
    have h1 := hg_total vst kv.2 (path ++ str "/" ++ kv.1) hcount
    cases hg1 : g vst kv.2 (path ++ str "/" ++ kv.1) with
    | none => rw [hg1] at h1; cases h1
    | some p =>
      obtain ⟨v2, o⟩ := p
      have hcount2 : unvisitedCount heap v2 < bound :=
        Nat.lt_of_le_of_lt (unvisitedCount_le_of_suffix heap vst v2 (hg_suffix _ _ _ _ _ hg1))
          hcount
      have h2 := ih v2 hcount2
      cases h3 : derezFoldObj g path v2 rest with
      | none => rw [h3] at h2; cases h2
      | some q => simp only [derezFoldObj, hg1, h3]; rfl

theorem derez_isSome (heap : List HObj) : ∀ (fuel : Nat) (visited : List (Nat × Str))
    (v : JVal) (path : Str), unvisitedCount heap visited < fuel →
    (derez heap fuel visited v path).isSome = true := by
  intro fuel
  induction fuel with
  | zero => intro visited v path h; omega
  | succ fuel ih =>
    intro visited v path hcount
    cases v with
    | prim p => simp [derez]
    | ref a =>
      cases hl : lookupNat visited a with
      | some old => simp [derez, hl]
      | none =>
        cases hheap : heap[a]? with
        | none => simp [derez, hl, hheap]
        | some ho =>
          have ha : a < heap.length := by
            by_contra hc
            rw [List.getElem?_eq_none (by omega)] at hheap
            cases hheap
          have hdrop := unvisitedCount_cons_lt heap visited a path ha hl
          have hlt : unvisitedCount heap ((a, path) :: visited) < fuel := by omega
          cases ho with
          | arrO elems =>
            have hfold := derezFoldArr_isSome heap (derez heap fuel) path fuel
              (fun vst e pth v2 o hg2 => derez_suffix heap fuel vst e pth v2 o hg2)
              (fun vst e pth hv => ih vst e pth hv) elems ((a, path) :: visited) 0 hlt
            cases hf : derezFoldArr (derez heap fuel) path ((a, path) :: visited) elems 0 with
            | none => rw [hf] at hfold; cases hfold
            | some q => simp only [derez, hl, hheap, hf]; rfl
          | objO fields =>
            have hfold := derezFoldObj_isSome heap (derez heap fuel) path fuel
              (fun vst e pth v2 o hg2 => derez_suffix heap fuel vst e pth v2 o hg2)
              (fun vst e pth hv => ih vst e pth hv) fields ((a, path) :: visited) hlt
            cases hf : derezFoldObj (derez heap fuel) path ((a, path) :: visited) fields with
            | none => rw [hf] at hfold; cases hfold
            | some q => simp only [derez, hl, hheap, hf]; rfl

/-- C9: decycle terminates on every heap and value — the character budget
`heap.length + 1` is always sufficient, so the result is `some` tree whose
serialization is a total function application; primitives and the exempt
built-ins (Date, RegExp, boxed scalars) pass through unchanged; a revisited
object identity becomes `\x7b$ref: <path of its first occurrence>\x7d`; and
concretely a self-referential object becomes `\x7b"self": \x7b$ref: "#"\x7d\x7d`
while a shared (acyclic) substructure is emitted once and referenced by its
first path on the second visit. -/
theorem decycle_spec :
    (∀ (heap : List HObj) (v : JVal),
      ∃ out, decycle heap v = some out ∧ ∃ s, serializeOVal out = s)
    ∧ (∀ (heap : List HObj) (p : DPrim), decycle heap (.prim p) = some (.prim p))
    ∧ (∀ (heap : List HObj) (fuel : Nat) (visited : List (Nat × Str)) (a : Nat)
        (path oldPath : Str), lookupNat visited a = some oldPath →
        derez heap (fuel + 1) visited (.ref a) path = some (visited, .refO oldPath))
    ∧ decycle [HObj.objO [(str "self", JVal.ref 0)]] (JVal.ref 0) =
        some (.objO [(str "self", .refO (str "#"))])
    ∧ decycle [HObj.arrO [JVal.ref 1, JVal.ref 1],
          HObj.objO [(str "x", JVal.prim (.nump 5))]] (JVal.ref 0) =
        some (.arrO [.objO [(str "x", .prim (.nump 5))], .refO (str "#/0")]) := by
  refine ⟨fun heap v => ?_, fun heap p => rfl, fun heap fuel visited a path oldPath h => ?_,
    rfl, rfl⟩
  · have hcount : unvisitedCount heap [] < heap.length + 1 := by
      have := List.length_filter_le (fun a => (lookupNat [] a).isNone) (List.range heap.length)
      simp only [unvisitedCount]
      simp only [List.length_range] at this
      omega
    have hsome := derez_isSome heap (heap.length + 1) [] v (str "#") hcount
    cases hd : derez heap (heap.length + 1) [] v (str "#") with
    | none => rw [hd] at hsome; cases hsome
    | some t => exact ⟨t.2, by simp [decycle, hd], _, rfl⟩
  · simp [derez, h]

theorem decycle_spec_witness :
    derez [] 1 [(5, str "#/x")] (.ref 5) (str "#/y") =
      some ([(5, str "#/x")], .refO (str "#/x")) :=
  decycle_spec.2.2.1 [] 0 [(5, str "#/x")] 5 (str "#/y") (str "#/x") rfl

theorem security_authorized_iff_witness :
    lookupKey (runSecurityHandlers [[(str "basicAuth", [])]] []).results (str "basicAuth") =
      some (handlerResult [] (str "basicAuth")) :=
  security_authorized_iff.2.1 [[(str "basicAuth", [])]] [] (str "basicAuth") (by decide)
